import Mathlib

/-!
Verification of the contract-checker core (`app/core/analyzer.py` and
`app/core/processor.py`) against its natural-language specification.

The Python code is shallowly embedded: strings are `List Char` / `String`,
`json.loads` is a fuel-based recursive-descent parser producing `JValue`,
Python exceptions are the explicit error type `PyError` threaded through
`Except`, and the external collaborators (filesystem, pypdf, python-docx,
the OpenAI client, the `unicodedata` tables) are parameters.
-/

namespace ContractChecker

/-- Named characters, written via code points so that quote/brace/backtick
characters never appear literally in the Lean source. -/
def apos : Char := Char.ofNat 39

def dquote : Char := Char.ofNat 34

def lbrace : Char := Char.ofNat 123

def rbrace : Char := Char.ofNat 125

def lbrack : Char := Char.ofNat 91

def rbrack : Char := Char.ofNat 93

def btick : Char := Char.ofNat 96

/-- Low single quotation mark U+201A, the single character actually matched by
the first quote-standardisation regex of `TextNormalizer.normalize` (its
pattern is the concatenation of the two literals `r'['` and `'‚]'`). -/
def lowSingleQuote : Char := Char.ofNat 0x201A

/-- Low double quotation mark U+201E, matched (together with the ASCII double
quote) by the second quote-standardisation regex. -/
def lowDoubleQuote : Char := Char.ofNat 0x201E

/-- The whitespace set of Python `str.strip()` / `str.isspace()`. -/
def pySpace (c : Char) : Bool :=
  c.val = 0x09 || c.val = 0x0A || c.val = 0x0B || c.val = 0x0C || c.val = 0x0D ||
  c.val = 0x1C || c.val = 0x1D || c.val = 0x1E || c.val = 0x1F || c.val = 0x20 ||
  c.val = 0x85 || c.val = 0xA0 || c.val = 0x1680 ||
  (0x2000 ≤ c.val && c.val ≤ 0x200A) ||
  c.val = 0x2028 || c.val = 0x2029 || c.val = 0x202F || c.val = 0x205F || c.val = 0x3000

/-- Python `str.strip()` on a character list: drop `pySpace` characters from
both ends. -/
def pyStrip (s : List Char) : List Char :=
  ((s.dropWhile pySpace).reverse.dropWhile pySpace).reverse

/-- Python `str.strip()` on a `String`. -/
def pyStripS (s : String) : String :=
  String.mk (pyStrip s.data)

/-- Models Python `str.lower()` on the ASCII range (`Char.toLower` folds
exactly the letters A-Z; every string the keyword scan or the risk-level
coercion compares against is ASCII). -/
def lowerS (s : String) : String :=
  String.mk (s.data.map Char.toLower)

/-- `dropPre p s` returns `some r` with `p ++ r = s` when `p` is a leading
piece of `s`, i.e. the success case of matching the literal `p` at the head. -/
def dropPre : List Char → List Char → Option (List Char)
  | [], s => some s
  | _ :: _, [] => none
  | p :: ps, c :: cs => if p = c then dropPre ps cs else none

/-- Python `sub in s` (substring containment) for character lists. -/
def isInfixL (sub : List Char) : List Char → Bool
  | [] => decide (sub = [])
  | c :: rest => (dropPre sub (c :: rest)).isSome || isInfixL sub rest

/-- Worker for `splitSep1`, structurally recursive on a fuel that dominates
the input length (each step consumes at least one character). -/
def splitSepF (s0 : Char) (srest : List Char) : Nat → List Char → List (List Char)
  | _, [] => [[]]
  | 0, _ :: _ => [[]]
  | fuel + 1, c :: rest =>
    match dropPre (s0 :: srest) (c :: rest) with
    | some rem => [] :: splitSepF s0 srest fuel rem
    | none =>
      match splitSepF s0 srest fuel rest with
      | [] => [[c]]
      | h :: t => (c :: h) :: t

/-- Python `s.split(sep)` for a non-empty separator `s0 :: srest`:
left-to-right, non-overlapping, empty chunks kept. -/
def splitSep1 (s0 : Char) (srest : List Char) (s : List Char) : List (List Char) :=
  splitSepF s0 srest s.length s

/-- A parsed JSON value, as produced by Python's `json.loads`. Numbers keep
their source lexeme (the analyzer never does arithmetic on them); objects keep
their entry list in source order, with last-wins lookup mirroring `dict`. -/
inductive JValue where
  | null
  | bool (b : Bool)
  | num (lexeme : String)
  | str (s : String)
  | arr (elems : List JValue)
  | obj (entries : List (String × JValue))
deriving Repr

/-- Python `dict` lookup for an entry list built left to right: a later
duplicate key overwrites an earlier one. -/
def dictGet (k : String) : List (String × JValue) → Option JValue
  | [] => none
  | (k', v) :: rest =>
    match dictGet k rest with
    | some w => some w
    | none => if k' = k then some v else none

/-- JSON whitespace accepted between tokens by `json.loads`. -/
def jsonWs (c : Char) : Bool :=
  c = ' ' || c = Char.ofNat 9 || c = Char.ofNat 10 || c = Char.ofNat 13

def skipWs (s : List Char) : List Char := s.dropWhile jsonWs

def isDigit (c : Char) : Bool := 48 ≤ c.toNat && c.toNat ≤ 57

/-- Value of one hexadecimal digit (for `\uXXXX` escapes). -/
def hexVal (c : Char) : Option Nat :=
  let n := c.toNat
  if 48 ≤ n ∧ n ≤ 57 then some (n - 48)
  else if 97 ≤ n ∧ n ≤ 102 then some (n - 87)
  else if 65 ≤ n ∧ n ≤ 70 then some (n - 55)
  else none

/-- Worker for `scanJString`, structurally recursive on a fuel that dominates
the input length. -/
def scanJStringF : Nat → List Char → Option (List Char × List Char)
  | 0, _ => none
  | _ + 1, [] => none
  | fuel + 1, c :: rest =>
    if c = dquote then some ([], rest)
    else if c.val < 0x20 then none
    else if c = '\\' then
      match rest with
      | [] => none
      | e :: rest' =>
        let dec : Option Char :=
          if e = dquote then some dquote
          else if e = '\\' then some '\\'
          else if e = '/' then some '/'
          else if e = 'b' then some (Char.ofNat 8)
          else if e = 'f' then some (Char.ofNat 12)
          else if e = 'n' then some (Char.ofNat 10)
          else if e = 'r' then some (Char.ofNat 13)
          else if e = 't' then some (Char.ofNat 9)
          else none
        match dec with
        | some d =>
          match scanJStringF fuel rest' with
          | some (cs, rem) => some (d :: cs, rem)
          | none => none
        | none =>
          if e = 'u' then
            match rest' with
            | h1 :: h2 :: h3 :: h4 :: rest'' =>
              match hexVal h1, hexVal h2, hexVal h3, hexVal h4 with
              | some a, some b, some c3, some d4 =>
                match scanJStringF fuel rest'' with
                | some (cs, rem) =>
                  some (Char.ofNat (((a * 16 + b) * 16 + c3) * 16 + d4) :: cs, rem)
                | none => none
              | _, _, _, _ => none
            | _ => none
          else none
    else
      match scanJStringF fuel rest with
      | some (cs, rem) => some (c :: cs, rem)
      | none => none

/-- The body of a JSON string literal after the opening quote: returns the
decoded characters and the remainder after the closing quote. Mirrors the
strict-mode scanner: raw control characters below U+0020 are rejected, and
the escapes are the standard eight plus `\uXXXX`. -/
def scanJString (s : List Char) : Option (List Char × List Char) :=
  scanJStringF (s.length + 1) s

/-- The number token grammar of `json.loads`:
`-?(0|[1-9][0-9]*)(.[0-9]+)?([eE][-+]?[0-9]+)?`; returns the lexeme. -/
def scanJNumber (s : List Char) : Option (List Char × List Char) :=
  let (sign, s1) :=
    match s with
    | '-' :: rest => (['-'], rest)
    | _ => ([], s)
  match s1 with
  | [] => none
  | c :: rest =>
    if c = '0' then
      let (frac, s2) := scanFrac rest
      some (sign ++ [c] ++ frac, s2)
    else if isDigit c then
      let ds := rest.takeWhile isDigit
      let s2 := rest.dropWhile isDigit
      let (frac, s3) := scanFrac s2
      some (sign ++ [c] ++ ds ++ frac, s3)
    else none
where
  /-- optional fraction and exponent parts -/
  scanFrac (s : List Char) : List Char × List Char :=
    let (fpart, s1) :=
      match s with
      | '.' :: d :: rest =>
        if isDigit d then
          ('.' :: d :: rest.takeWhile isDigit, rest.dropWhile isDigit)
        else ([], s)
      | _ => ([], s)
    let (epart, s2) :=
      match s1 with
      | e :: rest =>
        if e = 'e' || e = 'E' then
          match rest with
          | sg :: d :: rest' =>
            if (sg = '+' || sg = '-') && isDigit d then
              (e :: sg :: d :: rest'.takeWhile isDigit, rest'.dropWhile isDigit)
            else if isDigit sg then
              (e :: sg :: rest.tail.takeWhile isDigit, rest.tail.dropWhile isDigit)
            else ([], s1)
          | _ => ([], s1)
        else ([], s1)
      | [] => ([], s1)
    (fpart ++ epart, s2)

mutual

/-- Recursive-descent JSON value parser mirroring `json.loads` (including the
CPython extensions `NaN`, `Infinity`, `-Infinity`). `fuel` dominates the
nesting depth; every recursive call consumes at least one character, so any
`fuel ≥ length + 1` is enough. -/
def pJValue (fuel : Nat) (s : List Char) : Option (JValue × List Char) :=
  match fuel with
  | 0 => none
  | fuel + 1 =>
    match s with
    | [] => none
    | c :: rest =>
      if c = dquote then
        match scanJString rest with
        | some (cs, rem) => some (.str (String.mk cs), rem)
        | none => none
      else if c = lbrace then
        match skipWs rest with
        | c2 :: rest2 =>
          if c2 = rbrace then some (.obj [], rest2)
          else
            match pJMembers fuel (skipWs rest) with
            | some (kvs, rem) => some (.obj kvs, rem)
            | none => none
        | [] => none
      else if c = lbrack then
        match skipWs rest with
        | c2 :: rest2 =>
          if c2 = rbrack then some (.arr [], rest2)
          else
            match pJElements fuel (skipWs rest) with
            | some (xs, rem) => some (.arr xs, rem)
            | none => none
        | [] => none
      else
        match dropPre ['t', 'r', 'u', 'e'] s with
        | some rem => some (.bool true, rem)
        | none =>
        match dropPre ['f', 'a', 'l', 's', 'e'] s with
        | some rem => some (.bool false, rem)
        | none =>
        match dropPre ['n', 'u', 'l', 'l'] s with
        | some rem => some (.null, rem)
        | none =>
        match dropPre ['N', 'a', 'N'] s with
        | some rem => some (.num "NaN", rem)
        | none =>
        match dropPre ['I', 'n', 'f', 'i', 'n', 'i', 't', 'y'] s with
        | some rem => some (.num "Infinity", rem)
        | none =>
        match dropPre ['-', 'I', 'n', 'f', 'i', 'n', 'i', 't', 'y'] s with
        | some rem => some (.num "-Infinity", rem)
        | none =>
        match scanJNumber s with
        | some (lex, rem) => some (.num (String.mk lex), rem)
        | none => none

/-- One-or-more comma-separated `key : value` members (cursor just inside a
non-empty object, whitespace already skipped). -/
def pJMembers (fuel : Nat) (s : List Char) : Option (List (String × JValue) × List Char) :=
  match fuel with
  | 0 => none
  | fuel + 1 =>
    match s with
    | c :: rest =>
      if c = dquote then
        match scanJString rest with
        | some (kcs, rem1) =>
          match skipWs rem1 with
          | ':' :: rem2 =>
            match pJValue fuel (skipWs rem2) with
            | some (v, rem3) =>
              match skipWs rem3 with
              | ',' :: rem4 =>
                match pJMembers fuel (skipWs rem4) with
                | some (kvs, rem5) => some ((String.mk kcs, v) :: kvs, rem5)
                | none => none
              | c5 :: rem5 =>
                if c5 = rbrace then some ([(String.mk kcs, v)], rem5) else none
              | [] => none
            | none => none
          | _ => none
        | none => none
      else none
    | [] => none

/-- One-or-more comma-separated array elements (cursor just inside a
non-empty array, whitespace already skipped). -/
def pJElements (fuel : Nat) (s : List Char) : Option (List JValue × List Char) :=
  match fuel with
  | 0 => none
  | fuel + 1 =>
    match pJValue fuel s with
    | some (v, rem1) =>
      match skipWs rem1 with
      | ',' :: rem2 =>
        match pJElements fuel (skipWs rem2) with
        | some (xs, rem3) => some (v :: xs, rem3)
        | none => none
      | c2 :: rem2 => if c2 = rbrack then some ([v], rem2) else none
      | [] => none
    | none => none

end

/-- The error raised by a failed `json.loads`; a subclass of `ValueError` in
Python, only ever caught (never propagated) by `_parse_response`. -/
inductive JsonFailure where
  | expectingValue
  | extraData
deriving Repr, DecidableEq

/-- Python `json.loads`: skip leading whitespace, parse exactly one value,
require only whitespace afterwards. -/
def json_loads (s : List Char) : Except JsonFailure JValue :=
  match pJValue (s.length + 1) (skipWs s) with
  | some (v, rem) => if skipWs rem = [] then .ok v else .error .extraData
  | none => .error .expectingValue

/-- The Python exception raised at each failure site of the pipeline,
identified by its class plus its message. `exception` is the generic base
class `Exception`; `apiTimeoutError` stands for the provider client's
transport exception types (e.g. a timeout), which exist only upstream of
`_call_gpt`'s catch-all. -/
inductive PyError where
  | fileNotFoundError (msg : String)
  | valueError (msg : String)
  | runtimeError (msg : String)
  | attributeError (msg : String)
  | typeError (msg : String)
  | apiTimeoutError (msg : String)
  | exception (msg : String)
deriving Repr, DecidableEq

/-- The exception class alone (what an `except SomeClass:` clause can
distinguish). -/
inductive PyErrClass where
  | fileNotFound
  | value
  | runtime
  | attribute
  | typeErr
  | apiTimeout
  | generic
deriving Repr, DecidableEq

def PyError.cls : PyError → PyErrClass
  | .fileNotFoundError _ => .fileNotFound
  | .valueError _ => .value
  | .runtimeError _ => .runtime
  | .attributeError _ => .attribute
  | .typeError _ => .typeErr
  | .apiTimeoutError _ => .apiTimeout
  | .exception _ => .generic

/-- Python `str(e)` for an exception: its message. -/
def PyError.msg : PyError → String
  | .fileNotFoundError m => m
  | .valueError m => m
  | .runtimeError m => m
  | .attributeError m => m
  | .typeError m => m
  | .apiTimeoutError m => m
  | .exception m => m

/-- `RiskLevel` from `analyzer.py`: `LOW = "low"`, `MEDIUM = "medium"`,
`HIGH = "high"`. -/
inductive RiskLevel where
  | low
  | medium
  | high
deriving Repr, DecidableEq

def riskLevelValue : RiskLevel → String
  | .low => "low"
  | .medium => "medium"
  | .high => "high"

/-- `RiskLevel._value2member_map_` membership plus the `RiskLevel(...)`
constructor: the member with the given value, if any. -/
def riskLevelOfValue : String → Option RiskLevel
  | "low" => some .low
  | "medium" => some .medium
  | "high" => some .high
  | _ => none

/-- The `RedFlag` dataclass. Python's dataclass fields are unchecked, so the
free-text fields hold whatever JSON value `flag_data.get` returned (the
declared `str` type is not enforced); only `severity` is constructed through
`RiskLevel(...)` and is therefore really a `RiskLevel`. -/
structure RedFlag where
  clause_text : JValue
  risk_type : JValue
  explanation : JValue
  why_risky : JValue
  suggested_alternative : JValue
  severity : RiskLevel
deriving Repr

/-- The `RiskScore` dataclass: five fields all built via `parse_risk_field`,
hence genuinely `RiskLevel`-valued. -/
structure RiskScore where
  financial_risk : RiskLevel
  legal_exposure : RiskLevel
  fairness : RiskLevel
  missing_clauses : RiskLevel
  overall_score : RiskLevel
deriving Repr, DecidableEq

/-- The `ContractAnalysis` dataclass (free-shape fields kept as the JSON
values the parser produced; `processing_time` as an exact rational). -/
structure ContractAnalysis where
  summary : JValue
  key_terms : JValue
  red_flags : List RedFlag
  risk_score : RiskScore
  recommendations : JValue
  processing_time : ℚ
deriving Repr

/-- Python truthiness of a JSON-derived value (`None`, `False`, zero, empty
string/list/dict are falsy). A numeric literal is falsy exactly when its
mantissa digits are all zero. -/
def pyTruthy : JValue → Bool
  | .null => false
  | .bool b => b
  | .num lex =>
    let mant := (lex.data.filter fun c => c ≠ '-' && c ≠ '+').takeWhile
      (fun c => c ≠ 'e' && c ≠ 'E')
    decide (∃ c ∈ mant, isDigit c && c ≠ '0')
  | .str s => decide (s ≠ "")
  | .arr xs => !xs.isEmpty
  | .obj kvs => !kvs.isEmpty

/-- `data.get(key, default)`: `dict.get` when the receiver is a JSON object,
`AttributeError` otherwise (duck typing). -/
def pyGetMethod (data : JValue) (key : String) (dflt : JValue) : Except PyError JValue :=
  match data with
  | .obj kvs => .ok ((dictGet key kvs).getD dflt)
  | _ => .error (.attributeError "object has no attribute get")

/-- Python `for x in v`: lists iterate their elements, strings their
characters, dicts their keys; other values raise `TypeError`. -/
def pyIterate : JValue → Except PyError (List JValue)
  | .arr xs => .ok xs
  | .str s => .ok (s.data.map fun c => .str (String.mk [c]))
  | .obj kvs => .ok (kvs.map fun kv => .str kv.1)
  | _ => .error (.typeError "object is not iterable")

/-- The body of the red-flag loop of `_create_analysis_object` for one entry
(`analyzer.py` lines 264-276): read `severity` with default `"medium"`, map
falsy to `"medium"`, lowercase (an `AttributeError` if the value is a truthy
non-string), coerce through `RiskLevel(...)` with fallback `"medium"`, then
fill the five free-text fields with default `""`. -/
def buildRedFlag (flag_data : JValue) : Except PyError RedFlag := do
  let sev0 ← pyGetMethod flag_data "severity" (.str "medium")
  let sev1 := if pyTruthy sev0 then sev0 else .str "medium"
  match sev1 with
  | .str s =>
    let severity_raw := lowerS s
    let severity :=
      match riskLevelOfValue severity_raw with
      | some rl => rl
      | none => .medium
    let ct ← pyGetMethod flag_data "clause_text" (.str "")
    let rt ← pyGetMethod flag_data "risk_type" (.str "")
    let ex ← pyGetMethod flag_data "explanation" (.str "")
    let wr ← pyGetMethod flag_data "why_risky" (.str "")
    let sa ← pyGetMethod flag_data "suggested_alternative" (.str "")
    .ok { clause_text := ct, risk_type := rt, explanation := ex, why_risky := wr,
          suggested_alternative := sa, severity := severity }
  | _ => .error (.attributeError "object has no attribute lower")

/-- `parse_risk_field` (`analyzer.py` lines 282-284):
`raw = (risk_data.get(key, default) or default).lower()` then
`RiskLevel(raw if raw in RiskLevel._value2member_map_ else default)`. -/
def parse_risk_field (risk_data : JValue) (key : String) (dflt : String) :
    Except PyError RiskLevel := do
  let v0 ← pyGetMethod risk_data key (.str dflt)
  let v1 := if pyTruthy v0 then v0 else .str dflt
  match v1 with
  | .str s =>
    let raw := lowerS s
    match riskLevelOfValue raw with
    | some rl => .ok rl
    | none =>
      match riskLevelOfValue dflt with
      | some rl => .ok rl
      | none => .error (.valueError "is not a valid RiskLevel")
  | _ => .error (.attributeError "object has no attribute lower")

/-- Index of the first occurrence of `c` in `s` (Python `str.find`, which
returns -1 when absent, modelled as `none`). -/
def findChar (c : Char) : List Char → Option Nat
  | [] => none
  | x :: rest =>
    if x = c then some 0
    else match findChar c rest with
      | some i => some (i + 1)
      | none => none

/-- Index of the last occurrence of `c` in `s` (Python `str.rfind`). -/
def rfindChar (c : Char) (s : List Char) : Option Nat :=
  match findChar c s.reverse with
  | some i => some (s.length - 1 - i)
  | none => none

/-- The fence-stripping preamble of `_parse_response` (`analyzer.py` lines
228-237): strip the text; when it starts with a triple backtick, split on the
fence delimiter and replace it by the first stripped segment starting with a
brace, if any. -/
def stripFences (text : List Char) : List Char :=
  let ts := pyStrip text
  match ts with
  | a :: b :: c :: _ =>
    if a = btick && b = btick && c = btick then
      let parts := splitSep1 btick [btick, btick] ts
      match parts.find? (fun p => (pyStrip p).headD ' ' = lbrace) with
      | some p => pyStrip p
      | none => ts
    else ts
  | _ => ts

/-- `_parse_response` (`analyzer.py` lines 208-256), starting from the text
already extracted from the response envelope: reject empty text, strip a
leading code fence, attempt `json.loads`, fall back to the substring from the
first opening to the last closing brace, and raise
`RuntimeError("Failed to parse AI response as JSON.")` when everything fails.
All `json.JSONDecodeError`s are caught inside. -/
def parse_response (text : String) : Except PyError JValue :=
  if text = "" then .error (.runtimeError "AI returned no output.")
  else
    let ts := stripFences text.data
    match json_loads ts with
    | .ok data => .ok data
    | .error _ =>
      let failMsg : Except PyError JValue :=
        .error (.runtimeError "Failed to parse AI response as JSON.")
      match findChar lbrace ts, rfindChar rbrace ts with
      | some start, some en =>
        if start < en then
          match json_loads ((ts.drop start).take (en + 1 - start)) with
          | .ok data => .ok data
          | .error _ => failMsg
        else failMsg
      | _, _ => failMsg

/-- `_create_analysis_object` (`analyzer.py` lines 258-302): build the red
flags (each failing entry skipped by the `try/except/continue`, modelled by
`filterMap` of the per-entry result), then the five risk fields through
`parse_risk_field`, then the defaulted top-level fields. Failures outside the
per-entry `try` (non-dict `data`, non-iterable `red_flags`, a risk field
whose value has no `.lower`) propagate. -/
def create_analysis_object (data : JValue) : Except PyError ContractAnalysis := do
  let rfv ← pyGetMethod data "red_flags" (.arr [])
  let items ← pyIterate rfv
  let red_flags := items.filterMap fun fd => (buildRedFlag fd).toOption
  let risk_data ← pyGetMethod data "risk_score" (.obj [])
  let financial_risk ← parse_risk_field risk_data "financial_risk" "medium"
  let legal_exposure ← parse_risk_field risk_data "legal_exposure" "medium"
  let fairness ← parse_risk_field risk_data "fairness" "medium"
  let missing_clauses ← parse_risk_field risk_data "missing_clauses" "medium"
  let overall_score ← parse_risk_field risk_data "overall_score" "medium"
  let summary ← pyGetMethod data "summary" (.str "")
  let key_terms ← pyGetMethod data "key_terms" (.obj [])
  let recommendations ← pyGetMethod data "recommendations" (.arr [])
  .ok { summary := summary, key_terms := key_terms, red_flags := red_flags,
        risk_score := { financial_risk := financial_risk,
                        legal_exposure := legal_exposure,
                        fairness := fairness,
                        missing_clauses := missing_clauses,
                        overall_score := overall_score },
        recommendations := recommendations, processing_time := 0 }

/-- `_call_gpt` (`analyzer.py` lines 149-165). The remote call's outcome is a
parameter: either the textual payload that `_extract_text_from_response`
recovers from the response envelope, or the exception the provider client
raised. The catch-all re-raises every failure as
`RuntimeError("AI analysis failed: " + str(e))`. -/
def call_gpt (outcome : Except PyError String) : Except PyError String :=
  match outcome with
  | .ok r => .ok r
  | .error e => .error (.runtimeError ("AI analysis failed: " ++ e.msg))

/-- `analyze` (`analyzer.py` lines 81-98): remote call, response parsing,
result assembly. Timing is not modelled (`processing_time` stays 0). -/
def analyze (outcome : Except PyError String) : Except PyError ContractAnalysis := do
  let raw ← call_gpt outcome
  let data ← parse_response raw
  create_analysis_object data

/-- One serialized red flag inside the `to_dict` output: the free-text fields
as `asdict` copied them, `severity` replaced by its `.value` string. -/
structure RedFlagDict where
  clause_text : JValue
  risk_type : JValue
  explanation : JValue
  why_risky : JValue
  suggested_alternative : JValue
  severity : String
deriving Repr

/-- The serialized risk score: the five `RiskLevel`s replaced by their
`.value` strings. -/
structure RiskScoreDict where
  financial_risk : String
  legal_exposure : String
  fairness : String
  missing_clauses : String
  overall_score : String
deriving Repr

/-- The JSON-serializable mapping returned by `to_dict`. -/
structure AnalysisDict where
  summary : JValue
  key_terms : JValue
  red_flags : List RedFlagDict
  risk_score : RiskScoreDict
  recommendations : JValue
  processing_time : ℚ
deriving Repr

/-- `to_dict` (`analyzer.py` lines 304-314). `asdict` deep-copies the
dataclass tree into fresh dicts, and the two enum-to-string conversions then
mutate only that fresh copy; the analysis object itself is threaded through
untouched, which the pair return type makes explicit. -/
def to_dict (analysis : ContractAnalysis) : ContractAnalysis × AnalysisDict :=
  (analysis,
    { summary := analysis.summary,
      key_terms := analysis.key_terms,
      red_flags := analysis.red_flags.map fun f =>
        { clause_text := f.clause_text, risk_type := f.risk_type,
          explanation := f.explanation, why_risky := f.why_risky,
          suggested_alternative := f.suggested_alternative,
          severity := riskLevelValue f.severity },
      risk_score :=
        { financial_risk := riskLevelValue analysis.risk_score.financial_risk,
          legal_exposure := riskLevelValue analysis.risk_score.legal_exposure,
          fairness := riskLevelValue analysis.risk_score.fairness,
          missing_clauses := riskLevelValue analysis.risk_score.missing_clauses,
          overall_score := riskLevelValue analysis.risk_score.overall_score },
      recommendations := analysis.recommendations,
      processing_time := analysis.processing_time })

/-- The external `unicodedata` tables, a black-box collaborator of
`TextNormalizer.normalize`: the NFKC transformation and the first letter of
each character's general category. -/
structure UnicodeData where
  nfkc : List Char → List Char
  category0 : Char → Char

/-- The control-character filter of `normalize` (`processor.py` lines 30-31):
keep `c` unless its category starts with C, except newline, carriage return
and tab. -/
def keepChar (u : UnicodeData) (c : Char) : Bool :=
  u.category0 c ≠ 'C' || c = Char.ofNat 10 || c = Char.ofNat 13 || c = Char.ofNat 9

def filterControl (u : UnicodeData) (s : List Char) : List Char :=
  s.filter (keepChar u)

/-- `re.sub(r' {2,}', ' ', text)`: each maximal run of spaces becomes a
single space (of a pair of adjacent spaces, the first is dropped). -/
def collapseSpaces : List Char → List Char
  | [] => []
  | [c] => [c]
  | a :: b :: rest =>
    if a = ' ' ∧ b = ' ' then collapseSpaces (b :: rest)
    else a :: collapseSpaces (b :: rest)

/-- `text.replace('\r\n', '\n')`: left-to-right, non-overlapping. -/
def replaceCrLf : List Char → List Char
  | [] => []
  | [c] => [c]
  | a :: b :: rest =>
    if a = '\r' ∧ b = '\n' then '\n' :: replaceCrLf rest
    else a :: replaceCrLf (b :: rest)

/-- `.replace('\r', '\n')` after `replaceCrLf`. -/
def fixLineEndings (s : List Char) : List Char :=
  (replaceCrLf s).map fun c => if c = '\r' then '\n' else c

/-- `re.sub(r' +\n', '\n', text)`: drop each run of spaces immediately
followed by a newline (processed right to left: a space whose processed tail
begins with a newline is dropped). -/
def dropSpacesBeforeNl : List Char → List Char
  | [] => []
  | c :: rest =>
    if c = ' ' then
      match dropSpacesBeforeNl rest with
      | d :: out => if d = '\n' then d :: out else ' ' :: d :: out
      | [] => [' ']
    else c :: dropSpacesBeforeNl rest

/-- `re.sub(r'\n{3,}', '\n\n', text)`: each maximal run of three or more
newlines becomes exactly two (processed right to left: a newline whose
processed tail already begins with two newlines is dropped). -/
def collapseBlankLines : List Char → List Char
  | [] => []
  | c :: rest =>
    if c = '\n' then
      match collapseBlankLines rest with
      | d :: e :: out2 =>
        if d = '\n' ∧ e = '\n' then d :: e :: out2 else '\n' :: d :: e :: out2
      | [d] => ['\n', d]
      | [] => ['\n']
    else c :: collapseBlankLines rest

/-- The two quote-standardisation substitutions (`processor.py` lines 40-41).
Because the first pattern is the concatenated literal `[‚]` and the second is
`[""„]`, only U+201A is mapped to an apostrophe, and the ASCII double quote
(a no-op) and U+201E are mapped to a double quote. -/
def fixQuotes (s : List Char) : List Char :=
  s.map fun c =>
    if c = lowSingleQuote then apos
    else if c = dquote ∨ c = lowDoubleQuote then dquote
    else c

/-- `TextNormalizer.normalize` (`processor.py` lines 21-43), parameterized by
the `unicodedata` tables. -/
def normalize (u : UnicodeData) (text : List Char) : List Char :=
  if text = [] then []
  else
    pyStrip (fixQuotes (collapseBlankLines (dropSpacesBeforeNl (fixLineEndings
      (collapseSpaces (filterControl u (u.nfkc text)))))))

/-- `normalize` on `String`s. -/
def normalizeS (u : UnicodeData) (text : String) : String :=
  String.mk (normalize u text.data)

/-- No two adjacent characters of the list satisfy `bad`. -/
def noAdj (bad : Char → Char → Bool) : List Char → Bool
  | a :: b :: rest => !bad a b && noAdj bad (b :: rest)
  | _ => true

/-- No three consecutive newlines. -/
def noTripleNl : List Char → Bool
  | a :: b :: c :: rest =>
    !(a = '\n' && b = '\n' && c = '\n') && noTripleNl (b :: c :: rest)
  | _ => true

/-- Two adjacent spaces (the pattern removed by `collapseSpaces`). -/
def spacePair (a b : Char) : Bool := a = ' ' && b = ' '

/-- A space immediately before a newline (the pattern removed by
`dropSpacesBeforeNl`). -/
def spaceNl (a b : Char) : Bool := a = ' ' && b = '\n'

def zwsp : Char := Char.ofNat 0x200B

def combAcute : Char := Char.ofNat 0x301

def eAcute : Char := Char.ofNat 0xE9

/-- Modelled from the spec: the spec's step "Unicode canonical-compatibility
normalization (NFKC)" delegates to the external `unicodedata` module, whose
tables are not part of this repository. This fragment agrees with the real
Unicode tables on the characters it is applied to: NFKC canonically composes
`e` followed by U+0301 (combining acute) into `é` when they are adjacent, and
leaves the other characters used in this development unchanged. -/
def miniNfkc : List Char → List Char
  | [] => []
  | [c] => [c]
  | a :: b :: rest =>
    if a = 'e' && b = combAcute then eAcute :: miniNfkc rest
    else a :: miniNfkc (b :: rest)

/-- Modelled from the spec: the first letter of `unicodedata.category`,
restricted to the characters exercised here. It agrees with the real tables:
U+200B ZERO WIDTH SPACE is Cf, ASCII controls are Cc, and the remaining
characters used in this development are not in category C. -/
def miniCategory0 (c : Char) : Char :=
  if c = zwsp || c.val < 32 || c.val = 127 then 'C' else 'L'

/-- The `unicodedata` fragment packaged for `normalize`. -/
def miniU : UnicodeData where
  nfkc := miniNfkc
  category0 := miniCategory0

/-- The filesystem and the two extraction libraries, black-box collaborators
of `ContractProcessor`: whether a path exists, the per-page text that pypdf's
`page.extract_text()` yields (`""` for a page yielding nothing), and the
per-paragraph text that python-docx yields; `.error` is the message of an
exception the library raised. -/
structure FileSystem where
  pathExists : String → Bool
  pdfPages : String → Except String (List String)
  docxParagraphs : String → Except String (List String)

/-- `Path(file_path).suffix`: the extension of the final component, dot
included; empty when the final component has no dot, starts with its only
dot, or ends with its only dot. -/
def pathSuffix (file_path : String) : String :=
  let name := ((file_path.data.reverse.takeWhile (· ≠ '/')).reverse)
  match rfindChar '.' name with
  | some i => if 0 < i && i < name.length - 1 then String.mk (name.drop i) else ""
  | none => ""

def supported_formats : List String := [".pdf", ".docx", ".doc"]

/-- `_extract_from_pdf` (`processor.py` lines 104-129): append each truthy
per-page text followed by a newline; when the accumulated text strips to
nothing, return the empty string; wrap a library failure in a bare
`Exception`. -/
def extract_from_pdf (fs : FileSystem) (file_path : String) : Except PyError String :=
  match fs.pdfPages file_path with
  | .error e => .error (.exception ("PDF extraction failed: " ++ e))
  | .ok pages =>
    let text := pages.foldl (fun acc p => if p ≠ "" then acc ++ p ++ "\n" else acc) ""
    if pyStripS text = "" then .ok "" else .ok text

/-- `_extract_from_docx` (`processor.py` lines 132-155): join the original
text of every paragraph whose stripped text is non-empty with newlines; wrap
a library failure in a bare `Exception`. -/
def extract_from_docx (fs : FileSystem) (file_path : String) : Except PyError String :=
  match fs.docxParagraphs file_path with
  | .error e => .error (.exception ("DOCX extraction failed: " ++ e))
  | .ok paras =>
    let full_text := String.intercalate "\n" (paras.filter fun p => pyStripS p ≠ "")
    if pyStripS full_text = "" then .ok "" else .ok full_text

/-- `ContractProcessor.extract_text` (`processor.py` lines 66-101),
parameterized by the constructor's `normalize_text` flag: existence check,
extension dispatch, extraction, then normalization when both `clean` and
`normalize_text` hold. -/
def extract_text (fs : FileSystem) (u : UnicodeData) (normalize_text : Bool)
    (file_path : String) (clean : Bool) : Except PyError String := do
  if fs.pathExists file_path = false then
    .error (.fileNotFoundError ("File not found: " ++ file_path))
  else
    let file_extension := lowerS (pathSuffix file_path)
    if file_extension ∈ supported_formats then do
      let text ←
        if file_extension = ".pdf" then extract_from_pdf fs file_path
        else if file_extension = ".docx" ∨ file_extension = ".doc" then
          extract_from_docx fs file_path
        else .error (.valueError ("Handler not implemented for: " ++ file_extension))
      if clean && normalize_text then .ok (normalizeS u text)
      else .ok text
    else .error (.valueError ("Unsupported file format: " ++ file_extension))

/-- The validation dictionary built by `validate_contract_text`; the
`found_keywords` key is only ever set on the valid path, hence an `Option`. -/
structure ValidationResult where
  is_valid : Bool
  length_ok : Bool
  has_contract_keywords : Bool
  issues : List String
  found_keywords : Option (List String)
deriving Repr, DecidableEq

def contract_keywords : List String :=
  ["agreement", "contract", "party", "parties",
   "terms", "conditions", "hereby", "whereas",
   "signed", "effective", "termination"]

/-- `validate_contract_text` (`processor.py` lines 177-220). -/
def validate_contract_text (text : String) (min_length : Nat) : ValidationResult :=
  if text.length < min_length then
    { is_valid := false, length_ok := false, has_contract_keywords := false,
      issues := ["Text too short (" ++ toString text.length ++ " chars, need " ++
                 toString min_length ++ ")"],
      found_keywords := none }
  else
    let text_lower := lowerS text
    let found_keywords := contract_keywords.filter fun kw =>
      isInfixL kw.data text_lower.data
    if found_keywords.length < 2 then
      { is_valid := false, length_ok := true, has_contract_keywords := false,
        issues := ["Not enough contract keywords found"], found_keywords := none }
    else
      { is_valid := true, length_ok := true, has_contract_keywords := true,
        issues := [], found_keywords := some found_keywords }

/-- Python `text.split()` with no argument: split on whitespace runs,
discarding empty pieces. -/
def pySplitWs : List Char → List (List Char)
  | [] => []
  | c :: rest =>
    if pySpace c then pySplitWs rest
    else
      match rest with
      | [] => [[c]]
      | d :: _ =>
        if pySpace d then [c] :: pySplitWs rest
        else
          match pySplitWs rest with
          | w :: ws => (c :: w) :: ws
          | [] => [[c]]

def isSentencePunct (c : Char) : Bool := c = '.' || c = '!' || c = '?'

/-- `re.split(r'[.!?]+', text)`: cut at each maximal run of sentence
punctuation, keeping empty pieces. -/
def splitSentencePunct : List Char → List (List Char)
  | [] => [[]]
  | c :: rest =>
    if isSentencePunct c then
      match rest with
      | [] => [[], []]
      | d :: _ =>
        if isSentencePunct d then splitSentencePunct rest
        else [] :: splitSentencePunct rest
    else
      match splitSentencePunct rest with
      | [] => [[c]]
      | h :: t => (c :: h) :: t

/-- Round half to even, the behaviour of Python's `round` on an exactly
representable value; `round(x, 1)` is modelled on exact rationals, ignoring
binary floating-point representation error (no claim exercises a tie). -/
def roundHalfEven (q : ℚ) : ℤ :=
  let f := ⌊q⌋
  let r := q - f
  if r < 1 / 2 then f
  else if 1 / 2 < r then f + 1
  else if Even f then f else f + 1

def pyRound1 (q : ℚ) : ℚ := (roundHalfEven (10 * q) : ℚ) / 10

/-- The statistics dictionary of `get_text_stats`. -/
structure TextStats where
  characters : Nat
  words : Nat
  sentences : Nat
  paragraphs : Nat
  avg_word_length : ℚ
  avg_sentence_length : ℚ
deriving Repr, DecidableEq

/-- `get_text_stats` (`processor.py` lines 223-244). -/
def get_text_stats (text : String) : TextStats :=
  let s := text.data
  let words := pySplitWs s
  let sentences := (splitSentencePunct s).filter fun x => !(pyStrip x).isEmpty
  let paragraphs := (splitSep1 '\n' ['\n'] s).filter fun p => !(pyStrip p).isEmpty
  { characters := s.length
    words := words.length
    sentences := sentences.length
    paragraphs := paragraphs.length
    avg_word_length :=
      if words.isEmpty then 0
      else pyRound1 ((((words.map List.length).sum : ℚ)) / (words.length : ℚ))
    avg_sentence_length :=
      if sentences.isEmpty then 0
      else pyRound1 ((words.length : ℚ) / (sentences.length : ℚ)) }

/-- A filesystem whose PDF reader yields a 3-page document with one empty
page (the shape of the claim's example). -/
def pdfFs3 : FileSystem where
  pathExists := fun _ => true
  pdfPages := fun _ => .ok ["A", "", "B"]
  docxParagraphs := fun _ => .ok []


/-- A unicode table that acts as the identity (adequate wherever the pipeline
fails before normalization). -/
def idU : UnicodeData where
  nfkc := id
  category0 := fun _ => 'L'


/-- A filesystem whose PDF library raises on every file. -/
def failingPdfFs : FileSystem where
  pathExists := fun _ => true
  pdfPages := fun _ => .error "boom"
  docxParagraphs := fun _ => .ok []


/-! ## Claim C9 -/

/-- C9: `get_text_stats` on the empty string returns zero character, word,
sentence and paragraph counts and zero for both averages, and for every input
text the average word length (resp. sentence length) is 0 whenever there are
no words (resp. no sentences), so the guarded divisions never divide by
zero. -/
theorem get_text_stats_safe :
    get_text_stats "" =
      { characters := 0, words := 0, sentences := 0, paragraphs := 0,
        avg_word_length := 0, avg_sentence_length := 0 } ∧
    ∀ text : String,
      ((get_text_stats text).words = 0 → (get_text_stats text).avg_word_length = 0) ∧
      ((get_text_stats text).sentences = 0 → (get_text_stats text).avg_sentence_length = 0) := by
  refine ⟨by decide, fun text => ⟨?_, ?_⟩⟩
  · intro h
    simp only [get_text_stats] at h ⊢
    have hw : pySplitWs text.data = [] := List.length_eq_zero.mp h
    simp [hw]
  · intro h
    simp only [get_text_stats] at h ⊢
    have hs : (splitSentencePunct text.data).filter (fun x => !(pyStrip x).isEmpty) = [] :=
      List.length_eq_zero.mp h
    simp [hs]

/-- C9 witness: the two zero-average guards applied at a concrete wordless,
sentenceless input. -/
theorem get_text_stats_safe_witness :
    (get_text_stats "   ").avg_word_length = 0 ∧
    (get_text_stats "   ").avg_sentence_length = 0 :=
  ⟨(get_text_stats_safe.2 "   ").1 (by decide), (get_text_stats_safe.2 "   ").2 (by decide)⟩

/-! ## Claim C8 -/

/-- C8: for text shorter than `min_length`, `validate_contract_text` returns
the invalid result whose only issue is the too-short message, with the keyword
fields untouched (`has_contract_keywords` false, no `found_keywords` key), so
the keyword scan is short-circuited; for sufficiently long text the result is
valid exactly when at least 2 distinct keywords of the fixed list occur
case-insensitively. The function is total, hence never throws. -/
theorem validate_contract_text_spec (text : String) (min_length : Nat) :
    (text.length < min_length →
      validate_contract_text text min_length =
        { is_valid := false, length_ok := false, has_contract_keywords := false,
          issues := ["Text too short (" ++ toString text.length ++ " chars, need " ++
                     toString min_length ++ ")"],
          found_keywords := none }) ∧
    (min_length ≤ text.length →
      ((validate_contract_text text min_length).is_valid = true ↔
        2 ≤ (contract_keywords.filter fun kw =>
              isInfixL kw.data (lowerS text).data).length)) := by
  constructor
  · intro h
    simp [validate_contract_text, h]
  · intro h
    have h' : ¬ text.length < min_length := not_lt.mpr h
    simp only [validate_contract_text, if_neg h']
    by_cases hk : (contract_keywords.filter fun kw =>
        isInfixL kw.data (lowerS text).data).length < 2
    · simp [hk]
      try omega
    · simp [hk]
      try omega

/-- C8 witness: the short-circuit branch at a 2-character input with the
default threshold 100, and the keyword branch at a 100-character input
containing two keywords. -/
theorem validate_contract_text_spec_witness :
    validate_contract_text "hi" 100 =
      { is_valid := false, length_ok := false, has_contract_keywords := false,
        issues := ["Text too short (2 chars, need 100)"], found_keywords := none } ∧
    ((validate_contract_text
        (String.mk (List.replicate 84 'x') ++ " agreement PARTY") 100).is_valid = true ↔
      2 ≤ (contract_keywords.filter fun kw =>
            isInfixL kw.data
              (lowerS (String.mk (List.replicate 84 'x') ++ " agreement PARTY")).data).length) :=
  ⟨(validate_contract_text_spec "hi" 100).1 (by decide),
   (validate_contract_text_spec
      (String.mk (List.replicate 84 'x') ++ " agreement PARTY") 100).2 (by decide)⟩

/-! ## Claim C6 -/

/-- C6: with the constructor's `normalize_text` flag true and `clean` true,
`extract_text` returns exactly the result of the flag-off extraction passed
through `TextNormalizer.normalize` — for every filesystem, unicode table and
path (errors pass through unchanged on both sides). -/
theorem extract_text_normalize_flag (fs : FileSystem) (u : UnicodeData) (path : String) :
    extract_text fs u true path true =
      Except.map (normalizeS u) (extract_text fs u false path true) := by
  unfold extract_text
  by_cases h1 : fs.pathExists path = false
  · rw [if_pos h1, if_pos h1]; rfl
  · rw [if_neg h1, if_neg h1]
    by_cases h2 : lowerS (pathSuffix path) ∈ supported_formats
    · rw [if_pos h2, if_pos h2]
      by_cases h3 : lowerS (pathSuffix path) = ".pdf"
      · rw [if_pos h3, if_pos h3]
        cases extract_from_pdf fs path <;> rfl
      · rw [if_neg h3, if_neg h3]
        by_cases h4 : lowerS (pathSuffix path) = ".docx" ∨ lowerS (pathSuffix path) = ".doc"
        · rw [if_pos h4, if_pos h4]
          cases extract_from_docx fs path <;> rfl
        · rw [if_neg h4, if_neg h4]
          rfl
    · rw [if_neg h2, if_neg h2]
      rfl

/-! ## Claim C7 -/

/-- The page-accumulation loop of `_extract_from_pdf`, characterised: the
accumulated text is the non-empty pages each followed by a newline. -/
theorem pdf_foldl_pages (pages : List String) (acc : String) :
    pages.foldl (fun acc p => if p ≠ "" then acc ++ p ++ "\n" else acc) acc =
      acc ++ (pages.filter fun p => p ≠ "").foldr (fun p acc => p ++ "\n" ++ acc) "" := by
  induction pages generalizing acc with
  | nil => simp [String.append_empty]
  | cons p rest ih =>
      by_cases hp : p = ""
      · subst hp
        rw [List.foldl_cons, if_neg (by simp), List.filter_cons, if_neg (by simp)]
        exact ih acc
      · rw [List.foldl_cons, if_pos hp, List.filter_cons, if_pos (by simp [hp]),
          List.foldr_cons, ih]
        simp [String.append_assoc]

/-- C7 counterexample: on the 3-page document with one empty page,
`_extract_from_pdf` returns `"A\n" ++ "B\n"` — each page is followed by a
newline, so the result carries a trailing newline and is not the two
non-empty pages joined by a newline separator. -/
theorem extract_from_pdf_not_intercalate :
    extract_from_pdf pdfFs3 "contract.pdf" = .ok "A\nB\n" ∧
    ("A\nB\n" : String) ≠ String.intercalate "\n" ["A", "B"] :=
  ⟨rfl, by decide⟩

/-- C7 amended: PDF extraction returns every page that yields text followed
by a newline (newline-separated with a trailing newline), silently skipping
pages yielding no text, and returns the empty string — rather than raising —
whenever the accumulated text strips to nothing (in particular when the whole
document yields no text). -/
theorem extract_from_pdf_spec (fs : FileSystem) (path : String) (pages : List String)
    (h : fs.pdfPages path = .ok pages) :
    extract_from_pdf fs path =
      .ok (if pyStripS ((pages.filter fun p => p ≠ "").foldr
              (fun p acc => p ++ "\n" ++ acc) "") = ""
           then ""
           else (pages.filter fun p => p ≠ "").foldr (fun p acc => p ++ "\n" ++ acc) "") := by
  have hfold : pages.foldl (fun acc p => if p ≠ "" then acc ++ p ++ "\n" else acc) "" =
      (pages.filter fun p => p ≠ "").foldr (fun p acc => p ++ "\n" ++ acc) "" := by
    rw [pdf_foldl_pages, String.empty_append]
  unfold extract_from_pdf
  rw [h]
  show (if pyStripS (pages.foldl (fun acc p => if p ≠ "" then acc ++ p ++ "\n" else acc) "") = ""
        then (Except.ok "" : Except PyError String)
        else .ok (pages.foldl (fun acc p => if p ≠ "" then acc ++ p ++ "\n" else acc) "")) = _
  rw [hfold]
  split_ifs with hc
  · rfl
  · rfl

/-- C7 witness: the amended characterisation applied to the concrete 3-page
document, and to a document yielding no text at all. -/
theorem extract_from_pdf_spec_witness :
    extract_from_pdf pdfFs3 "contract.pdf" = .ok "A\nB\n" ∧
    extract_from_pdf
      { pathExists := fun _ => true, pdfPages := fun _ => .ok ["", ""],
        docxParagraphs := fun _ => .ok [] } "empty.pdf" = .ok "" := by
  constructor
  · rw [extract_from_pdf_spec pdfFs3 "contract.pdf" ["A", "", "B"] rfl]
    rfl
  · rw [extract_from_pdf_spec _ "empty.pdf" ["", ""] rfl]
    rfl

/-! ## Claim C10 -/

theorem riskLevelValue_mem (rl : RiskLevel) :
    riskLevelValue rl ∈ ["low", "medium", "high"] := by
  cases rl <;> simp [riskLevelValue]

/-- C10: `to_dict` leaves the analysis it serialises unchanged (the pair's
first component, the threaded object, is returned as it came in — the enum
conversions touch only the `asdict` copy), and the fresh mapping it returns
renders every `RiskLevel` as its lowercase string value: each of the five
risk-score fields and every red flag's severity, all of which lie in
`{"low", "medium", "high"}`. -/
theorem to_dict_frame_and_render (a : ContractAnalysis) :
    (to_dict a).1 = a ∧
    (to_dict a).2.risk_score.financial_risk = riskLevelValue a.risk_score.financial_risk ∧
    (to_dict a).2.risk_score.legal_exposure = riskLevelValue a.risk_score.legal_exposure ∧
    (to_dict a).2.risk_score.fairness = riskLevelValue a.risk_score.fairness ∧
    (to_dict a).2.risk_score.missing_clauses = riskLevelValue a.risk_score.missing_clauses ∧
    (to_dict a).2.risk_score.overall_score = riskLevelValue a.risk_score.overall_score ∧
    (to_dict a).2.red_flags = (a.red_flags.map fun f =>
      { clause_text := f.clause_text, risk_type := f.risk_type,
        explanation := f.explanation, why_risky := f.why_risky,
        suggested_alternative := f.suggested_alternative,
        severity := riskLevelValue f.severity }) ∧
    (to_dict a).2.summary = a.summary ∧
    (to_dict a).2.key_terms = a.key_terms ∧
    (to_dict a).2.recommendations = a.recommendations ∧
    (to_dict a).2.processing_time = a.processing_time ∧
    (to_dict a).2.risk_score.financial_risk ∈ ["low", "medium", "high"] ∧
    (to_dict a).2.risk_score.legal_exposure ∈ ["low", "medium", "high"] ∧
    (to_dict a).2.risk_score.fairness ∈ ["low", "medium", "high"] ∧
    (to_dict a).2.risk_score.missing_clauses ∈ ["low", "medium", "high"] ∧
    (to_dict a).2.risk_score.overall_score ∈ ["low", "medium", "high"] := by
  exact ⟨rfl, rfl, rfl, rfl, rfl, rfl, rfl, rfl, rfl, rfl, rfl,
    riskLevelValue_mem _, riskLevelValue_mem _, riskLevelValue_mem _,
    riskLevelValue_mem _, riskLevelValue_mem _⟩

/-! ## Claim C2 -/

/-- C2: for a red-flag entry, an unrecognized severity string (e.g.
`"URGENT"`) is coerced to `medium`; a missing severity defaults to `medium`;
every other field, when absent, defaults to the empty string (the built flag's
free-text fields are exactly the entry's values with default `""`); and an
entry whose construction raises is dropped by the loop's `try/except/continue`
without disturbing the flags built from the entries around it. -/
theorem red_flag_tolerance (kvs : List (String × JValue)) :
    (∀ s : String, dictGet "severity" kvs = some (.str s) →
      riskLevelOfValue (lowerS s) = none →
      buildRedFlag (.obj kvs) = .ok
        { clause_text := (dictGet "clause_text" kvs).getD (.str ""),
          risk_type := (dictGet "risk_type" kvs).getD (.str ""),
          explanation := (dictGet "explanation" kvs).getD (.str ""),
          why_risky := (dictGet "why_risky" kvs).getD (.str ""),
          suggested_alternative := (dictGet "suggested_alternative" kvs).getD (.str ""),
          severity := .medium }) ∧
    (dictGet "severity" kvs = none →
      buildRedFlag (.obj kvs) = .ok
        { clause_text := (dictGet "clause_text" kvs).getD (.str ""),
          risk_type := (dictGet "risk_type" kvs).getD (.str ""),
          explanation := (dictGet "explanation" kvs).getD (.str ""),
          why_risky := (dictGet "why_risky" kvs).getD (.str ""),
          suggested_alternative := (dictGet "suggested_alternative" kvs).getD (.str ""),
          severity := .medium }) ∧
    (∀ (pre post : List JValue) (bad : JValue) (e : PyError),
      buildRedFlag bad = .error e →
      (pre ++ bad :: post).filterMap (fun fd => (buildRedFlag fd).toOption) =
        pre.filterMap (fun fd => (buildRedFlag fd).toOption) ++
          post.filterMap (fun fd => (buildRedFlag fd).toOption)) := by
  refine ⟨?_, ?_, ?_⟩
  · intro s hget hnone
    by_cases hs : s = ""
    · subst hs
      simp [buildRedFlag, pyGetMethod, hget, pyTruthy, lowerS, riskLevelOfValue,
        Except.bind, bind]
    · simp [buildRedFlag, pyGetMethod, hget, pyTruthy, hs, hnone, Except.bind, bind]
  · intro hget
    simp [buildRedFlag, pyGetMethod, hget, pyTruthy, lowerS, riskLevelOfValue,
      Except.bind, bind]
  · intro pre post bad e hbad
    induction pre with
    | nil => simp [hbad, Except.toOption]
    | cons x xs ih => simp only [List.cons_append, List.filterMap_cons]
                      rw [ih]
                      cases (buildRedFlag x).toOption <;> simp

/-- C2 witness: an entry with severity `"URGENT"` builds with severity
`medium`; an entry with no severity builds with severity `medium` and empty
clause text; a malformed entry in the middle of the list is skipped. -/
theorem red_flag_tolerance_witness :
    buildRedFlag (.obj [("severity", .str "URGENT")]) = .ok
      { clause_text := .str "", risk_type := .str "", explanation := .str "",
        why_risky := .str "", suggested_alternative := .str "",
        severity := .medium } ∧
    buildRedFlag (.obj [("clause_text", .str "c")]) = .ok
      { clause_text := .str "c", risk_type := .str "", explanation := .str "",
        why_risky := .str "", suggested_alternative := .str "",
        severity := .medium } ∧
    [JValue.obj [("clause_text", .str "a")], .num "7",
      .obj [("clause_text", .str "b")]].filterMap
        (fun fd => (buildRedFlag fd).toOption) =
      [JValue.obj [("clause_text", .str "a")]].filterMap
        (fun fd => (buildRedFlag fd).toOption) ++
      [JValue.obj [("clause_text", .str "b")]].filterMap
        (fun fd => (buildRedFlag fd).toOption) :=
  ⟨(red_flag_tolerance [("severity", .str "URGENT")]).1 "URGENT" rfl rfl,
   (red_flag_tolerance [("clause_text", .str "c")]).2.1 rfl,
   (red_flag_tolerance []).2.2 [JValue.obj [("clause_text", .str "a")]]
     [JValue.obj [("clause_text", .str "b")]] (.num "7")
     (.attributeError "object has no attribute get") rfl⟩

/-! ## Claim C3 -/

/-- C3 counterexample: a risk-score sub-field whose value is the (truthy,
non-string) number `5` is unrecognized, yet it does not default to `medium`:
`(5).lower()` raises `AttributeError`, so the whole construction fails and no
analysis object is produced. -/
theorem risk_field_nonstring_raises :
    create_analysis_object
        (.obj [("risk_score", .obj [("financial_risk", .num "5")])]) =
      .error (.attributeError "object has no attribute lower") := rfl

/-- C3 amended: each risk-score sub-field is read independently by
`parse_risk_field`; a missing key yields `medium`, a falsy value (null,
`false`, zero, empty string) yields `medium`, a string value is lowercased
and coerced to the matching `RiskLevel` with unrecognized strings falling back
to `medium`, and every successfully parsed sub-field lies in
`{low, medium, high}`; but a truthy non-string value raises `AttributeError`
instead of defaulting (see the counterexample), so the defaulting invariant
holds only for absent, falsy or string-valued input. -/
theorem parse_risk_field_spec (kvs : List (String × JValue)) (key : String) :
    (dictGet key kvs = none → parse_risk_field (.obj kvs) key "medium" = .ok .medium) ∧
    (∀ s : String, dictGet key kvs = some (.str s) →
      parse_risk_field (.obj kvs) key "medium" =
        .ok ((riskLevelOfValue (lowerS s)).getD .medium)) ∧
    (∀ v, dictGet key kvs = some v → pyTruthy v = false →
      parse_risk_field (.obj kvs) key "medium" = .ok .medium) ∧
    (∀ rl, parse_risk_field (.obj kvs) key "medium" = .ok rl →
      rl ∈ [RiskLevel.low, RiskLevel.medium, RiskLevel.high]) := by
  refine ⟨?_, ?_, ?_, ?_⟩
  · intro hget
    simp [parse_risk_field, pyGetMethod, hget, pyTruthy, lowerS, riskLevelOfValue,
      Except.bind, bind]
  · intro s hget
    by_cases hs : s = ""
    · subst hs
      simp [parse_risk_field, pyGetMethod, hget, pyTruthy, lowerS, riskLevelOfValue,
        Except.bind, bind]
    · have htr : pyTruthy (.str s) = true := by simp [pyTruthy, hs]
      simp only [parse_risk_field, pyGetMethod, hget, Option.getD_some, Except.bind, bind]
      rw [htr]
      simp only [if_pos]
      cases hrl : riskLevelOfValue (lowerS s) <;> simp [hrl, riskLevelOfValue]
  · intro v hget htr
    simp only [parse_risk_field, pyGetMethod, hget, Option.getD_some, Except.bind, bind]
    rw [htr]
    simp [lowerS, riskLevelOfValue]
  · intro rl _
    cases rl <;> simp

/-- C3 amended witness: the three defaulting branches at concrete inputs —
missing key, unrecognized string `"URGENT"`, and null value. -/
theorem parse_risk_field_spec_witness :
    parse_risk_field (.obj []) "financial_risk" "medium" = .ok .medium ∧
    parse_risk_field (.obj [("financial_risk", .str "URGENT")]) "financial_risk" "medium" =
      .ok ((riskLevelOfValue (lowerS "URGENT")).getD .medium) ∧
    parse_risk_field (.obj [("financial_risk", .null)]) "financial_risk" "medium" =
      .ok .medium :=
  ⟨(parse_risk_field_spec [] "financial_risk").1 rfl,
   (parse_risk_field_spec [("financial_risk", .str "URGENT")] "financial_risk").2.1
     "URGENT" rfl,
   (parse_risk_field_spec [("financial_risk", .null)] "financial_risk").2.2.1
     .null rfl rfl⟩

/-! ## Claim C1 -/

/-- C1 counterexample: `"123"` contains no braces at all, yet
`_parse_response` does not raise — `json.loads` accepts any top-level JSON
value, so the direct parse succeeds and the number `123` is returned. -/
theorem parse_response_braceless_success :
    parse_response "123" = .ok (.num "123") := rfl

/-- C1 amended: the ordered fallback of `_parse_response` — empty extracted
text raises; otherwise the fence-stripped text is parsed directly and a
success is returned as-is; on a direct-parse failure with no opening brace in
the text (in particular, brace-free garbage that is not itself valid JSON)
it raises; on a direct-parse failure with a first `\x7b` strictly before a
last `\x7d`, the inclusive substring between them is parsed, its success
returned and its failure raised. Brace-free input that is valid JSON (e.g.
`"123"`) is returned by the direct parse rather than raising. -/
theorem parse_response_ordered_fallback (text : String) :
    (text = "" → parse_response text = .error (.runtimeError "AI returned no output.")) ∧
    (∀ v, text ≠ "" → json_loads (stripFences text.data) = .ok v →
      parse_response text = .ok v) ∧
    (∀ e, text ≠ "" → json_loads (stripFences text.data) = .error e →
      findChar lbrace (stripFences text.data) = none →
      parse_response text = .error (.runtimeError "Failed to parse AI response as JSON.")) ∧
    (∀ e st en v, text ≠ "" → json_loads (stripFences text.data) = .error e →
      findChar lbrace (stripFences text.data) = some st →
      rfindChar rbrace (stripFences text.data) = some en → st < en →
      json_loads (((stripFences text.data).drop st).take (en + 1 - st)) = .ok v →
      parse_response text = .ok v) ∧
    (∀ e e' st en, text ≠ "" → json_loads (stripFences text.data) = .error e →
      findChar lbrace (stripFences text.data) = some st →
      rfindChar rbrace (stripFences text.data) = some en → st < en →
      json_loads (((stripFences text.data).drop st).take (en + 1 - st)) = .error e' →
      parse_response text = .error (.runtimeError "Failed to parse AI response as JSON.")) := by
  refine ⟨?_, ?_, ?_, ?_, ?_⟩
  · intro h
    simp [parse_response, h]
  · intro v hne hok
    simp [parse_response, hne, hok]
  · intro e hne herr hfind
    simp [parse_response, hne, herr, hfind]
  · intro e st en v hne herr hfind hrfind hlt hok
    simp [parse_response, hne, herr, hfind, hrfind, hlt, hok]
  · intro e e' st en hne herr hfind hrfind hlt herr'
    simp [parse_response, hne, herr, hfind, hrfind, hlt, herr']

/-- C1 amended witness: brace-free garbage raises, and prose around an
embedded object is recovered by the substring fallback. -/
theorem parse_response_ordered_fallback_witness :
    parse_response "no braces garbage" =
      .error (.runtimeError "Failed to parse AI response as JSON.") ∧
    parse_response "Here is the result: \x7b\"summary\":\"x\"\x7d Thanks!" =
      .ok (.obj [("summary", .str "x")]) :=
  ⟨(parse_response_ordered_fallback "no braces garbage").2.2.1
     .expectingValue (by decide) rfl rfl,
   (parse_response_ordered_fallback
       "Here is the result: \x7b\"summary\":\"x\"\x7d Thanks!").2.2.2.1
     .expectingValue 20 34 (.obj [("summary", .str "x")]) (by decide) rfl rfl rfl
     (by decide) rfl⟩

/-! ## Claim C4 -/

/-- C4 counterexample: the pipeline's failures are not all distinct, catchable
error kinds — an underlying PDF-library failure is re-raised as the *generic*
base class `Exception`, and a remote-call failure and a parse failure are both
raised as `RuntimeError`, the same exception class, so a caller cannot
distinguish `AnalysisError` from `ParseError` by type. -/
theorem error_kinds_not_distinct :
    extract_text failingPdfFs idU true "contract.pdf" true =
      .error (.exception "PDF extraction failed: boom") ∧
    (PyError.exception "PDF extraction failed: boom").cls = .generic ∧
    analyze (.error (.apiTimeoutError "Request timed out.")) =
      .error (.runtimeError "AI analysis failed: Request timed out.") ∧
    analyze (.ok "no braces garbage") =
      .error (.runtimeError "Failed to parse AI response as JSON.") ∧
    (PyError.runtimeError "AI analysis failed: Request timed out.").cls =
      (PyError.runtimeError "Failed to parse AI response as JSON.").cls :=
  ⟨rfl, rfl, rfl, rfl, rfl⟩

/-- C4 amended: every remote-call failure is caught and re-raised as
`RuntimeError` wrapping the original message — never the raw transport
exception type; a missing file raises `FileNotFoundError` and an unsupported
extension raises `ValueError` (distinct types); but an extraction-library
failure is re-raised as the generic base class `Exception`, and parse
failures share `RuntimeError` with remote-call failures, so the five spec
error kinds do not all surface as distinct, catchable exception types. -/
theorem error_kind_classification (e : PyError) (fs : FileSystem) (u : UnicodeData)
    (path : String) (nt clean : Bool) (m : String) :
    (call_gpt (.error e) =
      .error (.runtimeError ("AI analysis failed: " ++ e.msg))) ∧
    ((call_gpt (.error e)).toOption = none →
      (PyError.runtimeError ("AI analysis failed: " ++ e.msg)).cls = .runtime) ∧
    (fs.pathExists path = false →
      extract_text fs u nt path clean =
        .error (.fileNotFoundError ("File not found: " ++ path))) ∧
    (fs.pathExists path = true → lowerS (pathSuffix path) ∉ supported_formats →
      extract_text fs u nt path clean =
        .error (.valueError ("Unsupported file format: " ++ lowerS (pathSuffix path)))) ∧
    (fs.pathExists path = true → lowerS (pathSuffix path) = ".pdf" →
      fs.pdfPages path = .error m →
      extract_text fs u nt path clean =
        .error (.exception ("PDF extraction failed: " ++ m))) := by
  refine ⟨rfl, fun _ => rfl, ?_, ?_, ?_⟩
  · intro h
    simp [extract_text, h]
  · intro h1 h2
    simp [extract_text, h1, h2]
  · intro h1 h2 h3
    simp [extract_text, h1, h2, supported_formats, extract_from_pdf, h3,
      Except.bind, bind]

/-- C4 amended witness: the four classification branches at concrete
inputs. -/
theorem error_kind_classification_witness :
    call_gpt (.error (.apiTimeoutError "Request timed out.")) =
      .error (.runtimeError "AI analysis failed: Request timed out.") ∧
    extract_text
      { pathExists := fun _ => false, pdfPages := fun _ => .ok [],
        docxParagraphs := fun _ => .ok [] } idU true "missing.pdf" true =
      .error (.fileNotFoundError "File not found: missing.pdf") ∧
    extract_text failingPdfFs idU true "contract.txt" true =
      .error (.valueError "Unsupported file format: .txt") ∧
    extract_text failingPdfFs idU true "contract.pdf" true =
      .error (.exception "PDF extraction failed: boom") :=
  ⟨(error_kind_classification (.apiTimeoutError "Request timed out.")
      failingPdfFs idU "x" true true "m").1,
   (error_kind_classification (.apiTimeoutError "t")
      { pathExists := fun _ => false, pdfPages := fun _ => .ok [],
        docxParagraphs := fun _ => .ok [] } idU "missing.pdf" true true "m").2.2.1 rfl,
   (error_kind_classification (.apiTimeoutError "t")
      failingPdfFs idU "contract.txt" true true "m").2.2.2.1 rfl (by decide),
   (error_kind_classification (.apiTimeoutError "t")
      failingPdfFs idU "contract.pdf" true true "boom").2.2.2.2 rfl rfl rfl⟩

/-! ## Claim C5 machinery

Idempotence of the normalization pipeline is proved by characterising the
output of each cleanup step: each step establishes the absence of the pattern
it removes, later steps preserve it, and each step is the identity on strings
in which its pattern is absent. -/

theorem cs_eq_two (a b : Char) (rest : List Char) :
    collapseSpaces (a :: b :: rest) =
      if a = ' ' ∧ b = ' ' then collapseSpaces (b :: rest)
      else a :: collapseSpaces (b :: rest) := rfl

theorem rcl_eq_two (a b : Char) (rest : List Char) :
    replaceCrLf (a :: b :: rest) =
      if a = '\r' ∧ b = '\n' then '\n' :: replaceCrLf rest
      else a :: replaceCrLf (b :: rest) := rfl

theorem dsp_eq_space_cons (rest : List Char) (d : Char) (out : List Char)
    (h : dropSpacesBeforeNl rest = d :: out) :
    dropSpacesBeforeNl (' ' :: rest) =
      if d = '\n' then d :: out else ' ' :: d :: out := by
  show (if (' ' : Char) = ' ' then
          match dropSpacesBeforeNl rest with
          | d :: out => if d = '\n' then d :: out else ' ' :: d :: out
          | [] => [' ']
        else ' ' :: dropSpacesBeforeNl rest) = _
  rw [if_pos rfl, h]

theorem dsp_eq_space_nil (rest : List Char) (h : dropSpacesBeforeNl rest = []) :
    dropSpacesBeforeNl (' ' :: rest) = [' '] := by
  show (if (' ' : Char) = ' ' then
          match dropSpacesBeforeNl rest with
          | d :: out => if d = '\n' then d :: out else ' ' :: d :: out
          | [] => [' ']
        else ' ' :: dropSpacesBeforeNl rest) = _
  rw [if_pos rfl, h]

theorem dsp_eq_nospace (c : Char) (rest : List Char) (hc : c ≠ ' ') :
    dropSpacesBeforeNl (c :: rest) = c :: dropSpacesBeforeNl rest := by
  show (if c = ' ' then
          match dropSpacesBeforeNl rest with
          | d :: out => if d = '\n' then d :: out else ' ' :: d :: out
          | [] => [' ']
        else c :: dropSpacesBeforeNl rest) = _
  rw [if_neg hc]

theorem cbl_eq_nl_cons2 (rest : List Char) (d e : Char) (out2 : List Char)
    (h : collapseBlankLines rest = d :: e :: out2) :
    collapseBlankLines ('\n' :: rest) =
      if d = '\n' ∧ e = '\n' then d :: e :: out2 else '\n' :: d :: e :: out2 := by
  show (if ('\n' : Char) = '\n' then
          match collapseBlankLines rest with
          | d :: e :: out2 =>
            if d = '\n' ∧ e = '\n' then d :: e :: out2 else '\n' :: d :: e :: out2
          | [d] => ['\n', d]
          | [] => ['\n']
        else '\n' :: collapseBlankLines rest) = _
  rw [if_pos rfl, h]

theorem cbl_eq_nl_one (rest : List Char) (d : Char)
    (h : collapseBlankLines rest = [d]) :
    collapseBlankLines ('\n' :: rest) = ['\n', d] := by
  show (if ('\n' : Char) = '\n' then
          match collapseBlankLines rest with
          | d :: e :: out2 =>
            if d = '\n' ∧ e = '\n' then d :: e :: out2 else '\n' :: d :: e :: out2
          | [d] => ['\n', d]
          | [] => ['\n']
        else '\n' :: collapseBlankLines rest) = _
  rw [if_pos rfl, h]

theorem cbl_eq_nl_nil (rest : List Char) (h : collapseBlankLines rest = []) :
    collapseBlankLines ('\n' :: rest) = ['\n'] := by
  show (if ('\n' : Char) = '\n' then
          match collapseBlankLines rest with
          | d :: e :: out2 =>
            if d = '\n' ∧ e = '\n' then d :: e :: out2 else '\n' :: d :: e :: out2
          | [d] => ['\n', d]
          | [] => ['\n']
        else '\n' :: collapseBlankLines rest) = _
  rw [if_pos rfl, h]

theorem cbl_eq_nonl (c : Char) (rest : List Char) (hc : c ≠ '\n') :
    collapseBlankLines (c :: rest) = c :: collapseBlankLines rest := by
  show (if c = '\n' then
          match collapseBlankLines rest with
          | d :: e :: out2 =>
            if d = '\n' ∧ e = '\n' then d :: e :: out2 else '\n' :: d :: e :: out2
          | [d] => ['\n', d]
          | [] => ['\n']
        else c :: collapseBlankLines rest) = _
  rw [if_neg hc]

theorem noAdj_tail (bad : Char → Char → Bool) (x : Char) (l : List Char)
    (h : noAdj bad (x :: l) = true) : noAdj bad l = true := by
  cases l with
  | nil => rfl
  | cons b rest =>
      simp only [noAdj, Bool.and_eq_true] at h
      exact h.2

theorem noAdj_pair (bad : Char → Char → Bool) (a b : Char) (l : List Char)
    (h : noAdj bad (a :: b :: l) = true) : bad a b = false := by
  simp only [noAdj, Bool.and_eq_true, Bool.not_eq_true'] at h
  exact h.1

theorem noAdj_cons (bad : Char → Char → Bool) (x : Char) (l : List Char)
    (hhead : ∀ y, l.head? = some y → bad x y = false)
    (h : noAdj bad l = true) : noAdj bad (x :: l) = true := by
  cases l with
  | nil => rfl
  | cons y rest =>
      simp only [noAdj, Bool.and_eq_true, Bool.not_eq_true']
      exact ⟨hhead y rfl, h⟩

theorem noAdj_append_right (bad : Char → Char → Bool) :
    ∀ l₁ l₂ : List Char, noAdj bad (l₁ ++ l₂) = true → noAdj bad l₂ = true := by
  intro l₁
  induction l₁ with
  | nil => intro l₂ h; simpa using h
  | cons a l₁ ih =>
      intro l₂ h
      exact ih l₂ (noAdj_tail bad a (l₁ ++ l₂) h)

theorem noAdj_append_left (bad : Char → Char → Bool) :
    ∀ l₁ l₂ : List Char, noAdj bad (l₁ ++ l₂) = true → noAdj bad l₁ = true
  | [], _, _ => rfl
  | [_], _, _ => rfl
  | a :: b :: rest, l₂, h => by
      have hp : bad a b = false := noAdj_pair bad a b (rest ++ l₂) h
      have ht : noAdj bad ((b :: rest) ++ l₂) = true :=
        noAdj_tail bad a ((b :: rest) ++ l₂) h
      have := noAdj_append_left bad (b :: rest) l₂ ht
      simp only [noAdj, Bool.and_eq_true, Bool.not_eq_true']
      exact ⟨hp, this⟩

theorem noAdj_infix (bad : Char → Char → Bool) (l₁ m l₂ : List Char)
    (h : noAdj bad (l₁ ++ m ++ l₂) = true) : noAdj bad m = true :=
  noAdj_append_left bad m l₂ (noAdj_append_right bad l₁ (m ++ l₂) (by simpa using h))

theorem noTripleNl_tail (x : Char) (l : List Char)
    (h : noTripleNl (x :: l) = true) : noTripleNl l = true := by
  cases l with
  | nil => rfl
  | cons b rest =>
      cases rest with
      | nil => rfl
      | cons c rest' =>
          simp only [noTripleNl, Bool.and_eq_true] at h
          exact h.2

theorem noTripleNl_window (a b c : Char) (l : List Char)
    (h : noTripleNl (a :: b :: c :: l) = true) :
    (a = '\n' && b = '\n' && c = '\n') = false := by
  simp only [noTripleNl, Bool.and_eq_true, Bool.not_eq_true'] at h
  exact h.1

theorem noTripleNl_cons (x : Char) (l : List Char)
    (hwin : ∀ y z rest, l = y :: z :: rest → (x = '\n' && y = '\n' && z = '\n') = false)
    (h : noTripleNl l = true) : noTripleNl (x :: l) = true := by
  cases l with
  | nil => rfl
  | cons y rest =>
      cases rest with
      | nil => rfl
      | cons z rest' =>
          simp only [noTripleNl, Bool.and_eq_true, Bool.not_eq_true']
          exact ⟨hwin y z rest' rfl, h⟩

theorem noTripleNl_append_right :
    ∀ l₁ l₂ : List Char, noTripleNl (l₁ ++ l₂) = true → noTripleNl l₂ = true := by
  intro l₁
  induction l₁ with
  | nil => intro l₂ h; simpa using h
  | cons a l₁ ih =>
      intro l₂ h
      exact ih l₂ (noTripleNl_tail a (l₁ ++ l₂) h)

theorem noTripleNl_append_left :
    ∀ l₁ l₂ : List Char, noTripleNl (l₁ ++ l₂) = true → noTripleNl l₁ = true
  | [], _, _ => rfl
  | [_], _, _ => rfl
  | [_, _], _, _ => rfl
  | a :: b :: c :: rest, l₂, h => by
      have hp := noTripleNl_window a b c (rest ++ l₂) h
      have ht : noTripleNl ((b :: c :: rest) ++ l₂) = true :=
        noTripleNl_tail a ((b :: c :: rest) ++ l₂) h
      have := noTripleNl_append_left (b :: c :: rest) l₂ ht
      simp only [noTripleNl, Bool.and_eq_true, Bool.not_eq_true']
      refine ⟨by simpa using hp, this⟩

theorem noTripleNl_infix (l₁ m l₂ : List Char)
    (h : noTripleNl (l₁ ++ m ++ l₂) = true) : noTripleNl m = true :=
  noTripleNl_append_left m l₂ (noTripleNl_append_right l₁ (m ++ l₂) (by simpa using h))

theorem mem_collapseSpaces (c : Char) : ∀ s, c ∈ collapseSpaces s → c ∈ s
  | [], h => by simpa [collapseSpaces] using h
  | [d], h => by simpa [collapseSpaces] using h
  | a :: b :: rest, h => by
      simp only [collapseSpaces] at h
      split at h
      · exact List.mem_cons_of_mem a (mem_collapseSpaces c (b :: rest) h)
      · rcases List.mem_cons.mp h with h | h
        · exact h ▸ List.mem_cons_self a (b :: rest)
        · exact List.mem_cons_of_mem a (mem_collapseSpaces c (b :: rest) h)

theorem mem_replaceCrLf (c : Char) : ∀ s, c ∈ replaceCrLf s → c ∈ s ∨ c = '\n'
  | [], h => by simpa [replaceCrLf] using h
  | [d], h => by
      simp only [replaceCrLf] at h
      exact Or.inl h
  | a :: b :: rest, h => by
      simp only [replaceCrLf] at h
      split at h
      · rcases List.mem_cons.mp h with h | h
        · exact Or.inr h
        · rcases mem_replaceCrLf c rest h with h | h
          · exact Or.inl (by simp [h])
          · exact Or.inr h
      · rcases List.mem_cons.mp h with h | h
        · exact Or.inl (by simp [h])
        · rcases mem_replaceCrLf c (b :: rest) h with h | h
          · exact Or.inl (List.mem_cons_of_mem a h)
          · exact Or.inr h

theorem mem_fixLineEndings (c : Char) (s : List Char) (h : c ∈ fixLineEndings s) :
    c ∈ s ∨ c = '\n' := by
  simp only [fixLineEndings, List.mem_map] at h
  obtain ⟨d, hd, hdc⟩ := h
  by_cases hr : d = '\r'
  · right
    rw [← hdc, if_pos hr]
  · rw [← hdc, if_neg hr]
    rcases mem_replaceCrLf d s hd with h | h
    · exact Or.inl h
    · exact Or.inr h

theorem mem_dropSpacesBeforeNl (c : Char) : ∀ s, c ∈ dropSpacesBeforeNl s → c ∈ s
  | [], h => by simpa [dropSpacesBeforeNl] using h
  | a :: rest, h => by
      by_cases ha : a = ' '
      · rcases hrec : dropSpacesBeforeNl rest with _ | ⟨d, out⟩
        · simp only [dropSpacesBeforeNl, if_pos ha, hrec, List.mem_singleton] at h
          simp [h, ha]
        · by_cases hd : d = '\n'
          · simp only [dropSpacesBeforeNl, if_pos ha, hrec, if_pos hd] at h
            have hm : c ∈ dropSpacesBeforeNl rest := by rw [hrec]; exact h
            exact List.mem_cons_of_mem a (mem_dropSpacesBeforeNl c rest hm)
          · simp only [dropSpacesBeforeNl, if_pos ha, hrec, if_neg hd] at h
            rcases List.mem_cons.mp h with h | h
            · simp [h, ha]
            · have hm : c ∈ dropSpacesBeforeNl rest := by rw [hrec]; exact h
              exact List.mem_cons_of_mem a (mem_dropSpacesBeforeNl c rest hm)
      · simp only [dropSpacesBeforeNl, if_neg ha] at h
        rcases List.mem_cons.mp h with h | h
        · exact h ▸ List.mem_cons_self a rest
        · exact List.mem_cons_of_mem a (mem_dropSpacesBeforeNl c rest h)

theorem mem_collapseBlankLines (c : Char) :
    ∀ s, c ∈ collapseBlankLines s → c ∈ s ∨ c = '\n'
  | [], h => by simpa [collapseBlankLines] using h
  | a :: rest, h => by
      by_cases ha : a = '\n'
      · rcases hrec : collapseBlankLines rest with _ | ⟨d, out⟩
        · simp only [collapseBlankLines, if_pos ha, hrec, List.mem_singleton] at h
          exact Or.inr h
        · rcases out with _ | ⟨e, out2⟩
          · simp only [collapseBlankLines, if_pos ha, hrec, List.mem_cons,
              List.not_mem_nil, or_false] at h
            rcases h with h | h
            · exact Or.inr h
            · have hm : c ∈ collapseBlankLines rest := by rw [hrec]; simp [h]
              rcases mem_collapseBlankLines c rest hm with h | h
              · exact Or.inl (List.mem_cons_of_mem a h)
              · exact Or.inr h
          · by_cases hde : d = '\n' ∧ e = '\n'
            · simp only [collapseBlankLines, if_pos ha, hrec, if_pos hde] at h
              have hm : c ∈ collapseBlankLines rest := by rw [hrec]; exact h
              rcases mem_collapseBlankLines c rest hm with h | h
              · exact Or.inl (List.mem_cons_of_mem a h)
              · exact Or.inr h
            · simp only [collapseBlankLines, if_pos ha, hrec, if_neg hde] at h
              rcases List.mem_cons.mp h with h | h
              · exact Or.inr h
              · have hm : c ∈ collapseBlankLines rest := by rw [hrec]; exact h
                rcases mem_collapseBlankLines c rest hm with h | h
                · exact Or.inl (List.mem_cons_of_mem a h)
                · exact Or.inr h
      · simp only [collapseBlankLines, if_neg ha] at h
        rcases List.mem_cons.mp h with h | h
        · exact Or.inl (by simp [h])
        · rcases mem_collapseBlankLines c rest h with h | h
          · exact Or.inl (List.mem_cons_of_mem a h)
          · exact Or.inr h

theorem mem_fixQuotes (c : Char) (s : List Char) (h : c ∈ fixQuotes s) :
    c ∈ s ∨ c = apos ∨ c = dquote := by
  simp only [fixQuotes, List.mem_map] at h
  obtain ⟨d, hd, hdc⟩ := h
  by_cases h1 : d = lowSingleQuote
  · rw [← hdc, if_pos h1]
    exact Or.inr (Or.inl rfl)
  · by_cases h2 : d = dquote ∨ d = lowDoubleQuote
    · rw [← hdc, if_neg h1, if_pos h2]
      exact Or.inr (Or.inr rfl)
    · rw [← hdc, if_neg h1, if_neg h2]
      exact Or.inl hd

theorem mem_dropWhile (p : Char → Bool) (c : Char) (l : List Char)
    (h : c ∈ l.dropWhile p) : c ∈ l := by
  rw [← List.takeWhile_append_dropWhile (p := p) (l := l)]
  exact List.mem_append_right _ h

theorem mem_pyStrip (c : Char) (s : List Char) (h : c ∈ pyStrip s) : c ∈ s := by
  simp only [pyStrip, List.mem_reverse] at h
  have h1 := mem_dropWhile pySpace c _ h
  simp only [List.mem_reverse] at h1
  exact mem_dropWhile pySpace c _ h1

theorem head?_collapseSpaces : ∀ s, (collapseSpaces s).head? = s.head?
  | [] => rfl
  | [_] => rfl
  | a :: b :: rest => by
      by_cases hc : a = ' ' ∧ b = ' '
      · simp only [collapseSpaces, if_pos hc]
        rw [head?_collapseSpaces (b :: rest)]
        simp only [Bool.and_eq_true, decide_eq_true_eq] at hc
        simp [hc.1, hc.2]
      · simp [collapseSpaces, if_neg hc]

theorem head?_replaceCrLf : ∀ s d, (replaceCrLf s).head? = some d → d ≠ '\n' →
    s.head? = some d
  | [], d, h, _ => by simp [replaceCrLf] at h
  | [c], d, h, _ => h
  | a :: b :: rest, d, h, hd => by
      by_cases hc : a = '\r' ∧ b = '\n'
      · rw [rcl_eq_two, if_pos hc] at h
        simp only [List.head?_cons, Option.some.injEq] at h
        exact absurd h.symm hd
      · rw [rcl_eq_two, if_neg hc] at h
        simpa using h

theorem head?_fixLineEndings (s : List Char) (d : Char)
    (h : (fixLineEndings s).head? = some d) (hd : d ≠ '\n') : s.head? = some d := by
  simp only [fixLineEndings, List.head?_map] at h
  rcases hr : (replaceCrLf s).head? with _ | e
  · rw [hr] at h; simp at h
  · rw [hr] at h
    simp only [Option.map_some', Option.some.injEq] at h
    by_cases he : e = '\r'
    · rw [if_pos he] at h
      exact absurd h.symm hd
    · rw [if_neg he] at h
      exact head?_replaceCrLf s d (h ▸ hr) hd

theorem head?_dropSpacesBeforeNl : ∀ s d, (dropSpacesBeforeNl s).head? = some d →
    d ≠ '\n' → s.head? = some d
  | [], d, h, _ => by simp [dropSpacesBeforeNl] at h
  | a :: rest, d, h, hd => by
      by_cases ha : a = ' '
      · rcases hrec : dropSpacesBeforeNl rest with _ | ⟨e, out⟩
        · simp only [dropSpacesBeforeNl, if_pos ha, hrec, List.head?_cons,
            Option.some.injEq] at h
          simp [ha, ← h]
        · by_cases he : e = '\n'
          · simp only [dropSpacesBeforeNl, if_pos ha, hrec, if_pos he,
              List.head?_cons, Option.some.injEq] at h
            exact absurd (he ▸ h.symm) hd
          · simp only [dropSpacesBeforeNl, if_pos ha, hrec, if_neg he,
              List.head?_cons, Option.some.injEq] at h
            simp [ha, ← h]
      · simp only [dropSpacesBeforeNl, if_neg ha, List.head?_cons,
          Option.some.injEq] at h
        simp [← h]

theorem head?_collapseBlankLines : ∀ s, (collapseBlankLines s).head? = s.head?
  | [] => rfl
  | a :: rest => by
      by_cases ha : a = '\n'
      · rcases hrec : collapseBlankLines rest with _ | ⟨d, out⟩
        · simp [collapseBlankLines, if_pos ha, hrec, ha]
        · rcases out with _ | ⟨e, out2⟩
          · simp [collapseBlankLines, if_pos ha, hrec, ha]
          · by_cases hde : d = '\n' ∧ e = '\n'
            · simp only [collapseBlankLines, if_pos ha, hrec, if_pos hde,
                List.head?_cons]
              simp only [Bool.and_eq_true, decide_eq_true_eq] at hde
              simp [ha, hde.1]
            · simp [collapseBlankLines, if_pos ha, hrec, if_neg hde, ha]
      · simp [collapseBlankLines, if_neg ha]

theorem filterControl_id (u : UnicodeData) (s : List Char)
    (h : ∀ c ∈ s, keepChar u c = true) : filterControl u s = s := by
  induction s with
  | nil => rfl
  | cons a rest ih =>
      simp only [filterControl, List.filter_cons]
      rw [if_pos (h a (List.mem_cons_self a rest))]
      have := ih fun c hc => h c (List.mem_cons_of_mem a hc)
      simpa [filterControl] using this

theorem collapseSpaces_id : ∀ s, noAdj spacePair s = true → collapseSpaces s = s
  | [], _ => rfl
  | [_], _ => rfl
  | a :: b :: rest, h => by
      have h1 := noAdj_pair _ _ _ _ h
      have hc : ¬(a = ' ' ∧ b = ' ') := by
        intro hab
        simp [spacePair, hab.1, hab.2] at h1
      rw [cs_eq_two, if_neg hc, collapseSpaces_id (b :: rest) (noAdj_tail _ _ _ h)]

theorem replaceCrLf_id : ∀ s, (∀ c ∈ s, c ≠ '\r') → replaceCrLf s = s
  | [], _ => rfl
  | [_], _ => rfl
  | a :: b :: rest, h => by
      have ha := h a (by simp)
      have hc : ¬(a = '\r' ∧ b = '\n') := fun hab => ha hab.1
      rw [rcl_eq_two, if_neg hc,
        replaceCrLf_id (b :: rest) (fun c hc => h c (List.mem_cons_of_mem a hc))]

theorem fixLineEndings_id (s : List Char) (h : ∀ c ∈ s, c ≠ '\r') :
    fixLineEndings s = s := by
  simp only [fixLineEndings]
  rw [replaceCrLf_id s h]
  have : ∀ c ∈ s, (if c = '\r' then '\n' else c) = c := fun c hc => if_neg (h c hc)
  calc s.map (fun c => if c = '\r' then '\n' else c) = s.map id :=
        List.map_congr_left this
    _ = s := List.map_id s

theorem dropSpacesBeforeNl_id : ∀ s, noAdj spaceNl s = true → dropSpacesBeforeNl s = s
  | [], _ => rfl
  | a :: rest, h => by
      have ih := dropSpacesBeforeNl_id rest (noAdj_tail _ _ _ h)
      by_cases ha : a = ' '
      · cases rest with
        | nil =>
            subst ha
            rfl
        | cons d out =>
            subst ha
            have h1 := noAdj_pair _ _ _ _ h
            simp only [spaceNl] at h1
            have hd : d ≠ '\n' := by
              intro hdn
              simp [hdn] at h1
            rw [dsp_eq_space_cons (d :: out) d out ih, if_neg hd]
      · rw [dsp_eq_nospace a rest ha, ih]

theorem collapseBlankLines_id : ∀ s, noTripleNl s = true → collapseBlankLines s = s
  | [], _ => rfl
  | a :: rest, h => by
      have ih := collapseBlankLines_id rest (noTripleNl_tail _ _ h)
      by_cases ha : a = '\n'
      · subst ha
        cases rest with
        | nil => rfl
        | cons d out =>
            cases out with
            | nil => rw [cbl_eq_nl_one (d :: []) d ih]
            | cons e out2 =>
                have hw := noTripleNl_window '\n' d e out2 h
                have hde : ¬(d = '\n' ∧ e = '\n') := by
                  intro hab
                  simp [hab.1, hab.2] at hw
                rw [cbl_eq_nl_cons2 (d :: e :: out2) d e out2 ih, if_neg hde]
      · rw [cbl_eq_nonl a rest ha, ih]

theorem fixQuotes_id (s : List Char)
    (h : ∀ c ∈ s, c ≠ lowSingleQuote ∧ c ≠ lowDoubleQuote) : fixQuotes s = s := by
  simp only [fixQuotes]
  have : ∀ c ∈ s,
      (if c = lowSingleQuote then apos
       else if c = dquote ∨ c = lowDoubleQuote then dquote
       else c) = c := by
    intro c hc
    rw [if_neg (h c hc).1]
    by_cases hd : c = dquote
    · rw [if_pos (Or.inl hd), hd]
    · rw [if_neg (by rintro (h' | h'); exacts [hd h', (h c hc).2 h'])]
  calc s.map _ = s.map id := List.map_congr_left this
    _ = s := List.map_id s

theorem dropWhile_head_false (p : Char → Bool) :
    ∀ (l : List Char) (c : Char), (l.dropWhile p).head? = some c → p c = false := by
  intro l
  induction l with
  | nil => intro c h; simp [List.dropWhile] at h
  | cons a rest ih =>
      intro c h
      by_cases hp : p a = true
      · rw [List.dropWhile_cons_of_pos hp] at h
        exact ih c h
      · rw [List.dropWhile_cons_of_neg hp] at h
        simp only [List.head?_cons, Option.some.injEq] at h
        rw [← h]
        exact Bool.eq_false_iff.mpr hp

theorem dropWhile_eq_self_of_head (p : Char → Bool) (l : List Char)
    (h : ∀ c, l.head? = some c → p c = false) : l.dropWhile p = l := by
  cases l with
  | nil => rfl
  | cons a rest =>
      exact List.dropWhile_cons_of_neg (by simp [h a rfl])

theorem pyStrip_id (s : List Char)
    (h1 : ∀ c, s.head? = some c → pySpace c = false)
    (h2 : ∀ c, s.getLast? = some c → pySpace c = false) : pyStrip s = s := by
  unfold pyStrip
  rw [dropWhile_eq_self_of_head pySpace s h1]
  rw [dropWhile_eq_self_of_head pySpace s.reverse
    (fun c hc => h2 c (by rwa [List.head?_reverse] at hc))]
  exact List.reverse_reverse s

theorem pyStrip_getLast_not_space (s : List Char) (c : Char)
    (h : (pyStrip s).getLast? = some c) : pySpace c = false := by
  unfold pyStrip at h
  rw [List.getLast?_reverse] at h
  exact dropWhile_head_false pySpace _ c h

theorem getLast?_append_right (l₁ l₂ : List Char) (h : l₂ ≠ []) :
    (l₁ ++ l₂).getLast? = l₂.getLast? := by
  rw [← List.head?_reverse, ← List.head?_reverse, List.reverse_append]
  cases hr : l₂.reverse with
  | nil => exact absurd (by simpa using hr) h
  | cons a t => simp

theorem pyStrip_head_not_space (s : List Char) (c : Char)
    (h : (pyStrip s).head? = some c) : pySpace c = false := by
  unfold pyStrip at h
  rw [List.head?_reverse] at h
  have hBne : (s.dropWhile pySpace).reverse.dropWhile pySpace ≠ [] := by
    intro hBnil
    rw [hBnil] at h
    simp at h
  have hsplit : (s.dropWhile pySpace).reverse =
      (s.dropWhile pySpace).reverse.takeWhile pySpace ++
        (s.dropWhile pySpace).reverse.dropWhile pySpace :=
    (List.takeWhile_append_dropWhile pySpace _).symm
  have hlast : ((s.dropWhile pySpace).reverse.dropWhile pySpace).getLast? =
      (s.dropWhile pySpace).reverse.getLast? := by
    conv_rhs => rw [hsplit]
    rw [getLast?_append_right _ _ hBne]
  rw [hlast, List.getLast?_reverse] at h
  exact dropWhile_head_false pySpace s c h

theorem pyStrip_infix (s : List Char) :
    ∃ t₁ t₂, s = t₁ ++ pyStrip s ++ t₂ := by
  refine ⟨s.takeWhile pySpace,
    ((s.dropWhile pySpace).reverse.takeWhile pySpace).reverse, ?_⟩
  unfold pyStrip
  have h1 : s = s.takeWhile pySpace ++ s.dropWhile pySpace :=
    (List.takeWhile_append_dropWhile pySpace s).symm
  have h2 : (s.dropWhile pySpace).reverse =
      (s.dropWhile pySpace).reverse.takeWhile pySpace ++
        (s.dropWhile pySpace).reverse.dropWhile pySpace :=
    (List.takeWhile_append_dropWhile pySpace _).symm
  have h3 : s.dropWhile pySpace =
      ((s.dropWhile pySpace).reverse.dropWhile pySpace).reverse ++
        ((s.dropWhile pySpace).reverse.takeWhile pySpace).reverse := by
    have := congrArg List.reverse h2
    rwa [List.reverse_reverse, List.reverse_append] at this
  rw [List.append_assoc]
  rw [← h3]
  exact h1

theorem collapseSpaces_noAdj : ∀ s, noAdj spacePair (collapseSpaces s) = true
  | [] => rfl
  | [_] => rfl
  | a :: b :: rest => by
      have ih := collapseSpaces_noAdj (b :: rest)
      by_cases hc : a = ' ' ∧ b = ' '
      · rw [cs_eq_two, if_pos hc]
        exact ih
      · rw [cs_eq_two, if_neg hc]
        refine noAdj_cons _ _ _ ?_ ih
        intro y hy
        rw [head?_collapseSpaces (b :: rest)] at hy
        simp only [List.head?_cons, Option.some.injEq] at hy
        subst hy
        simp only [spacePair]
        by_cases ha : a = ' '
        · have hb : ¬ b = ' ' := fun hb => hc ⟨ha, hb⟩
          simp [hb]
        · simp [ha]

theorem noAdj_map (bad : Char → Char → Bool) (f : Char → Char)
    (hf : ∀ a b, bad (f a) (f b) = bad a b) :
    ∀ s, noAdj bad s = true → noAdj bad (s.map f) = true
  | [], _ => rfl
  | [_], _ => rfl
  | a :: b :: rest, h => by
      have ih := noAdj_map bad f hf (b :: rest) (noAdj_tail _ _ _ h)
      have hp := noAdj_pair _ _ _ _ h
      simp only [List.map_cons] at ih ⊢
      refine noAdj_cons _ _ _ ?_ ih
      intro y hy
      simp only [List.head?_cons, Option.some.injEq] at hy
      subst hy
      rw [hf]
      exact hp

theorem noTripleNl_map (f : Char → Char) (hf : ∀ a, f a = '\n' ↔ a = '\n') :
    ∀ s, noTripleNl s = true → noTripleNl (s.map f) = true
  | [], _ => rfl
  | [_], _ => rfl
  | [_, _], _ => rfl
  | a :: b :: c :: rest, h => by
      have ih := noTripleNl_map f hf (b :: c :: rest) (noTripleNl_tail _ _ h)
      have hw := noTripleNl_window a b c rest h
      simp only [List.map_cons] at ih ⊢
      simp only [noTripleNl, Bool.and_eq_true, Bool.not_eq_true']
      constructor
      · simpa only [hf] using hw
      · exact ih

theorem replaceCrLf_sp2 : ∀ s, noAdj spacePair s = true →
    noAdj spacePair (replaceCrLf s) = true
  | [], _ => rfl
  | [_], _ => rfl
  | a :: b :: rest, h => by
      by_cases hc : a = '\r' ∧ b = '\n'
      · rw [rcl_eq_two, if_pos hc]
        have hrest : noAdj spacePair rest = true :=
          noAdj_tail _ _ _ (noAdj_tail _ _ _ h)
        refine noAdj_cons _ _ _ ?_ (replaceCrLf_sp2 rest hrest)
        intro y hy
        simp [spacePair]
      · rw [rcl_eq_two, if_neg hc]
        refine noAdj_cons _ _ _ ?_ (replaceCrLf_sp2 (b :: rest) (noAdj_tail _ _ _ h))
        intro y hy
        by_cases hyn : y = '\n'
        · subst hyn
          simp [spacePair]
        · have hb := head?_replaceCrLf (b :: rest) y hy hyn
          simp only [List.head?_cons, Option.some.injEq] at hb
          subst hb
          exact noAdj_pair _ _ _ _ h

theorem crmap_space (a : Char) : ((if a = '\r' then '\n' else a) = ' ') ↔ a = ' ' := by
  by_cases ha : a = '\r'
  · rw [if_pos ha, ha]
    simp
  · rw [if_neg ha]

theorem fixLineEndings_sp2 (s : List Char) (h : noAdj spacePair s = true) :
    noAdj spacePair (fixLineEndings s) = true := by
  apply noAdj_map spacePair _ ?_ (replaceCrLf s) (replaceCrLf_sp2 s h)
  intro a b
  simp only [spacePair]
  rw [show decide ((if a = '\r' then '\n' else a) = ' ') = decide (a = ' ') from
      decide_eq_decide.mpr (crmap_space a),
    show decide ((if b = '\r' then '\n' else b) = ' ') = decide (b = ' ') from
      decide_eq_decide.mpr (crmap_space b)]

theorem dropSpacesBeforeNl_sp2 : ∀ s, noAdj spacePair s = true →
    noAdj spacePair (dropSpacesBeforeNl s) = true
  | [], _ => rfl
  | a :: rest, h => by
      have ih := dropSpacesBeforeNl_sp2 rest (noAdj_tail _ _ _ h)
      by_cases ha : a = ' '
      · subst ha
        rcases hrec : dropSpacesBeforeNl rest with _ | ⟨d, out⟩
        · rw [dsp_eq_space_nil rest hrec]
          rfl
        · rw [hrec] at ih
          by_cases hd : d = '\n'
          · rw [dsp_eq_space_cons rest d out hrec, if_pos hd]
            exact ih
          · rw [dsp_eq_space_cons rest d out hrec, if_neg hd]
            refine noAdj_cons _ _ _ ?_ ih
            intro y hy
            simp only [List.head?_cons, Option.some.injEq] at hy
            subst hy
            have hh := head?_dropSpacesBeforeNl rest d (by rw [hrec]; rfl) hd
            cases rest with
            | nil => simp at hh
            | cons r0 rest' =>
                simp only [List.head?_cons, Option.some.injEq] at hh
                subst hh
                exact noAdj_pair _ _ _ _ h
      · rw [dsp_eq_nospace a rest ha]
        refine noAdj_cons _ _ _ ?_ ih
        intro y hy
        by_cases hyn : y = '\n'
        · subst hyn
          simp [spacePair]
        · have hh := head?_dropSpacesBeforeNl rest y hy hyn
          cases rest with
          | nil => simp at hh
          | cons r0 rest' =>
              simp only [List.head?_cons, Option.some.injEq] at hh
              subst hh
              exact noAdj_pair _ _ _ _ h

theorem dropSpacesBeforeNl_spNl : ∀ s, noAdj spaceNl (dropSpacesBeforeNl s) = true
  | [] => rfl
  | a :: rest => by
      have ih := dropSpacesBeforeNl_spNl rest
      by_cases ha : a = ' '
      · subst ha
        rcases hrec : dropSpacesBeforeNl rest with _ | ⟨d, out⟩
        · rw [dsp_eq_space_nil rest hrec]
          rfl
        · rw [hrec] at ih
          by_cases hd : d = '\n'
          · rw [dsp_eq_space_cons rest d out hrec, if_pos hd]
            exact ih
          · rw [dsp_eq_space_cons rest d out hrec, if_neg hd]
            refine noAdj_cons _ _ _ ?_ ih
            intro y hy
            simp only [List.head?_cons, Option.some.injEq] at hy
            subst hy
            simp [spaceNl, hd]
      · rw [dsp_eq_nospace a rest ha]
        refine noAdj_cons _ _ _ ?_ ih
        intro y hy
        simp [spaceNl, ha]

theorem collapseBlankLines_noAdj (bad : Char → Char → Bool)
    (hnl : ∀ y, bad '\n' y = false) :
    ∀ s, noAdj bad s = true → noAdj bad (collapseBlankLines s) = true
  | [], _ => rfl
  | a :: rest, h => by
      have ih := collapseBlankLines_noAdj bad hnl rest (noAdj_tail _ _ _ h)
      by_cases ha : a = '\n'
      · subst ha
        rcases hrec : collapseBlankLines rest with _ | ⟨d, out⟩
        · rw [cbl_eq_nl_nil rest hrec]
          rfl
        · rcases out with _ | ⟨e, out2⟩
          · rw [cbl_eq_nl_one rest d hrec]
            simp only [noAdj, Bool.and_eq_true, Bool.not_eq_true']
            exact ⟨hnl d, trivial⟩
          · rw [hrec] at ih
            by_cases hde : d = '\n' ∧ e = '\n'
            · rw [cbl_eq_nl_cons2 rest d e out2 hrec, if_pos hde]
              exact ih
            · rw [cbl_eq_nl_cons2 rest d e out2 hrec, if_neg hde]
              refine noAdj_cons _ _ _ ?_ ih
              intro y hy
              simp only [List.head?_cons, Option.some.injEq] at hy
              subst hy
              exact hnl d
      · rw [cbl_eq_nonl a rest ha]
        refine noAdj_cons _ _ _ ?_ ih
        intro y hy
        rw [head?_collapseBlankLines rest] at hy
        cases rest with
        | nil => simp at hy
        | cons r0 rest' =>
            simp only [List.head?_cons, Option.some.injEq] at hy
            subst hy
            exact noAdj_pair _ _ _ _ h

theorem collapseBlankLines_no3 : ∀ s, noTripleNl (collapseBlankLines s) = true
  | [] => rfl
  | a :: rest => by
      have ih := collapseBlankLines_no3 rest
      by_cases ha : a = '\n'
      · subst ha
        rcases hrec : collapseBlankLines rest with _ | ⟨d, out⟩
        · rw [cbl_eq_nl_nil rest hrec]
          rfl
        · rcases out with _ | ⟨e, out2⟩
          · rw [cbl_eq_nl_one rest d hrec]
            rfl
          · rw [hrec] at ih
            by_cases hde : d = '\n' ∧ e = '\n'
            · rw [cbl_eq_nl_cons2 rest d e out2 hrec, if_pos hde]
              exact ih
            · rw [cbl_eq_nl_cons2 rest d e out2 hrec, if_neg hde]
              simp only [noTripleNl, Bool.and_eq_true, Bool.not_eq_true']
              constructor
              · by_cases hd : d = '\n'
                · have he : ¬ e = '\n' := fun he => hde ⟨hd, he⟩
                  simp [hd, he]
                · simp [hd]
              · exact ih
      · rw [cbl_eq_nonl a rest ha]
        refine noTripleNl_cons a _ ?_ ih
        intro y z rest2 heq
        simp [ha]

theorem fqmap_space (a : Char) :
    ((if a = lowSingleQuote then apos
      else if a = dquote ∨ a = lowDoubleQuote then dquote else a) = ' ') ↔ a = ' ' := by
  by_cases h1 : a = lowSingleQuote
  · rw [if_pos h1, h1]
    constructor
    · intro h
      exact absurd h (by decide)
    · intro h
      exact absurd h (by decide)
  · rw [if_neg h1]
    by_cases h2 : a = dquote ∨ a = lowDoubleQuote
    · rw [if_pos h2]
      constructor
      · intro h
        exact absurd h (by decide)
      · intro h
        rcases h2 with h2 | h2 <;> rw [h2] at h <;> exact absurd h (by decide)
    · rw [if_neg h2]

theorem fqmap_nl (a : Char) :
    ((if a = lowSingleQuote then apos
      else if a = dquote ∨ a = lowDoubleQuote then dquote else a) = '\n') ↔ a = '\n' := by
  by_cases h1 : a = lowSingleQuote
  · rw [if_pos h1, h1]
    constructor
    · intro h
      exact absurd h (by decide)
    · intro h
      exact absurd h (by decide)
  · rw [if_neg h1]
    by_cases h2 : a = dquote ∨ a = lowDoubleQuote
    · rw [if_pos h2]
      constructor
      · intro h
        exact absurd h (by decide)
      · intro h
        rcases h2 with h2 | h2 <;> rw [h2] at h <;> exact absurd h (by decide)
    · rw [if_neg h2]

theorem fixQuotes_sp2 (s : List Char) (h : noAdj spacePair s = true) :
    noAdj spacePair (fixQuotes s) = true := by
  apply noAdj_map spacePair _ ?_ s h
  intro a b
  simp only [spacePair]
  rw [show decide ((if a = lowSingleQuote then apos
        else if a = dquote ∨ a = lowDoubleQuote then dquote else a) = ' ') =
      decide (a = ' ') from decide_eq_decide.mpr (fqmap_space a),
    show decide ((if b = lowSingleQuote then apos
        else if b = dquote ∨ b = lowDoubleQuote then dquote else b) = ' ') =
      decide (b = ' ') from decide_eq_decide.mpr (fqmap_space b)]

theorem fixQuotes_spNl (s : List Char) (h : noAdj spaceNl s = true) :
    noAdj spaceNl (fixQuotes s) = true := by
  apply noAdj_map spaceNl _ ?_ s h
  intro a b
  simp only [spaceNl]
  rw [show decide ((if a = lowSingleQuote then apos
        else if a = dquote ∨ a = lowDoubleQuote then dquote else a) = ' ') =
      decide (a = ' ') from decide_eq_decide.mpr (fqmap_space a),
    show decide ((if b = lowSingleQuote then apos
        else if b = dquote ∨ b = lowDoubleQuote then dquote else b) = '\n') =
      decide (b = '\n') from decide_eq_decide.mpr (fqmap_nl b)]

theorem fixQuotes_no3 (s : List Char) (h : noTripleNl s = true) :
    noTripleNl (fixQuotes s) = true :=
  noTripleNl_map _ fqmap_nl s h

theorem pyStrip_noAdj (bad : Char → Char → Bool) (s : List Char)
    (h : noAdj bad s = true) : noAdj bad (pyStrip s) = true := by
  obtain ⟨t₁, t₂, hs⟩ := pyStrip_infix s
  exact noAdj_infix bad t₁ _ t₂ (hs ▸ h)

theorem pyStrip_no3 (s : List Char) (h : noTripleNl s = true) :
    noTripleNl (pyStrip s) = true := by
  obtain ⟨t₁, t₂, hs⟩ := pyStrip_infix s
  exact noTripleNl_infix t₁ _ t₂ (hs ▸ h)

theorem fixLineEndings_no_cr (s : List Char) (c : Char) (h : c ∈ fixLineEndings s) :
    c ≠ '\r' := by
  simp only [fixLineEndings, List.mem_map] at h
  obtain ⟨d, _, hdc⟩ := h
  by_cases hd : d = '\r'
  · rw [← hdc, if_pos hd]
    decide
  · rw [← hdc, if_neg hd]
    exact hd

theorem fixQuotes_no_low (s : List Char) (c : Char) (h : c ∈ fixQuotes s) :
    c ≠ lowSingleQuote ∧ c ≠ lowDoubleQuote := by
  simp only [fixQuotes, List.mem_map] at h
  obtain ⟨d, _, hdc⟩ := h
  by_cases h1 : d = lowSingleQuote
  · rw [← hdc, if_pos h1]
    exact ⟨by decide, by decide⟩
  · by_cases h2 : d = dquote ∨ d = lowDoubleQuote
    · rw [← hdc, if_neg h1, if_pos h2]
      exact ⟨by decide, by decide⟩
    · rw [← hdc, if_neg h1, if_neg h2]
      exact ⟨h1, fun hd => h2 (Or.inr hd)⟩

theorem mem_clean (X : List Char) (c : Char)
    (h : c ∈ pyStrip (fixQuotes (collapseBlankLines (dropSpacesBeforeNl
      (fixLineEndings (collapseSpaces X)))))) :
    c ∈ X ∨ c = '\n' ∨ c = apos ∨ c = dquote := by
  have h1 := mem_pyStrip c _ h
  rcases mem_fixQuotes c _ h1 with h2 | h2 | h2
  · rcases mem_collapseBlankLines c _ h2 with h3 | h3
    · have h4 := mem_dropSpacesBeforeNl c _ h3
      rcases mem_fixLineEndings c _ h4 with h5 | h5
      · exact Or.inl (mem_collapseSpaces c _ h5)
      · exact Or.inr (Or.inl h5)
    · exact Or.inr (Or.inl h3)
  · exact Or.inr (Or.inr (Or.inl h2))
  · exact Or.inr (Or.inr (Or.inr h2))

/-- The cleanup stages after NFKC are jointly the identity on a string already
carrying all their output invariants. -/
theorem clean_fix (u : UnicodeData) (O : List Char)
    (hctl : ∀ c ∈ O, keepChar u c = true)
    (hsp2 : noAdj spacePair O = true)
    (hcr : ∀ c ∈ O, c ≠ '\r')
    (hspnl : noAdj spaceNl O = true)
    (hno3 : noTripleNl O = true)
    (hq : ∀ c ∈ O, c ≠ lowSingleQuote ∧ c ≠ lowDoubleQuote)
    (hhead : ∀ c, O.head? = some c → pySpace c = false)
    (hlast : ∀ c, O.getLast? = some c → pySpace c = false) :
    pyStrip (fixQuotes (collapseBlankLines (dropSpacesBeforeNl (fixLineEndings
      (collapseSpaces (filterControl u O)))))) = O := by
  rw [filterControl_id u O hctl, collapseSpaces_id O hsp2, fixLineEndings_id O hcr,
    dropSpacesBeforeNl_id O hspnl, collapseBlankLines_id O hno3, fixQuotes_id O hq,
    pyStrip_id O hhead hlast]

/-! ## Claim C5 -/

/-- C5 counterexample: `normalize` is not idempotent. On the text
`e, U+200B, U+0301`, the first pass leaves `e` followed by the combining
acute (NFKC cannot compose across the intervening zero-width space, which the
control-character filter then removes), while the second pass's NFKC composes
the now-adjacent pair into `é`. Verified against CPython's `unicodedata` on
the same input. -/
theorem normalize_not_idempotent :
    normalize miniU (normalize miniU ['e', zwsp, combAcute]) ≠
      normalize miniU ['e', zwsp, combAcute] := by decide

/-- C5 amended: the pipeline after NFKC (control stripping, space collapsing,
line-ending fixes, trailing-space and blank-line collapsing, quote
standardisation, outer strip) is idempotent; full `normalize` is idempotent
on exactly those inputs whose first-pass output is NFKC-stable (for a
`unicodedata` table in which the straight quotes the pipeline introduces are
not control characters, as in real Unicode). The counterexample shows the
NFKC-stability proviso cannot be dropped. -/
theorem normalize_idempotent_of_nfkc_stable (u : UnicodeData) (t : List Char)
    (hq1 : u.category0 apos ≠ 'C') (hq2 : u.category0 dquote ≠ 'C')
    (h : u.nfkc (normalize u t) = normalize u t) :
    normalize u (normalize u t) = normalize u t := by
  by_cases ht : t = []
  · subst ht
    simp [normalize]
  · have hOdef : normalize u t =
        pyStrip (fixQuotes (collapseBlankLines (dropSpacesBeforeNl (fixLineEndings
          (collapseSpaces (filterControl u (u.nfkc t))))))) := by
      simp [normalize, ht]
    by_cases hO : normalize u t = []
    · rw [hO]
      simp [normalize]
    · have hctl : ∀ c ∈ normalize u t, keepChar u c = true := by
        intro c hc
        rw [hOdef] at hc
        rcases mem_clean (filterControl u (u.nfkc t)) c hc with h1 | h1 | h1 | h1
        · simp only [filterControl] at h1
          exact (List.mem_filter.mp h1).2
        · subst h1
          simp [keepChar]
        · subst h1
          simp [keepChar, hq1]
        · subst h1
          simp [keepChar, hq2]
      have hsp2 : noAdj spacePair (normalize u t) = true := by
        rw [hOdef]
        exact pyStrip_noAdj _ _ (fixQuotes_sp2 _ (collapseBlankLines_noAdj _
          (by intro y; simp [spacePair]) _ (dropSpacesBeforeNl_sp2 _
            (fixLineEndings_sp2 _ (collapseSpaces_noAdj _)))))
      have hcr : ∀ c ∈ normalize u t, c ≠ '\r' := by
        intro c hc
        rw [hOdef] at hc
        rcases mem_fixQuotes c _ (mem_pyStrip c _ hc) with h2 | h2 | h2
        · rcases mem_collapseBlankLines c _ h2 with h3 | h3
          · exact fixLineEndings_no_cr _ _ (mem_dropSpacesBeforeNl c _ h3)
          · subst h3
            decide
        · subst h2
          decide
        · subst h2
          decide
      have hspnl : noAdj spaceNl (normalize u t) = true := by
        rw [hOdef]
        exact pyStrip_noAdj _ _ (fixQuotes_spNl _ (collapseBlankLines_noAdj _
          (by intro y; simp [spaceNl]) _ (dropSpacesBeforeNl_spNl _)))
      have hno3 : noTripleNl (normalize u t) = true := by
        rw [hOdef]
        exact pyStrip_no3 _ (fixQuotes_no3 _ (collapseBlankLines_no3 _))
      have hqn : ∀ c ∈ normalize u t, c ≠ lowSingleQuote ∧ c ≠ lowDoubleQuote := by
        intro c hc
        rw [hOdef] at hc
        exact fixQuotes_no_low _ _ (mem_pyStrip c _ hc)
      have hhead : ∀ c, (normalize u t).head? = some c → pySpace c = false := by
        intro c hc
        rw [hOdef] at hc
        exact pyStrip_head_not_space _ c hc
      have hlast : ∀ c, (normalize u t).getLast? = some c → pySpace c = false := by
        intro c hc
        rw [hOdef] at hc
        exact pyStrip_getLast_not_space _ c hc
      have hout : normalize u (normalize u t) =
          pyStrip (fixQuotes (collapseBlankLines (dropSpacesBeforeNl (fixLineEndings
            (collapseSpaces (filterControl u (u.nfkc (normalize u t)))))))) := by
        rw [show normalize u (normalize u t) =
            if normalize u t = [] then []
            else pyStrip (fixQuotes (collapseBlankLines (dropSpacesBeforeNl
              (fixLineEndings (collapseSpaces (filterControl u
                (u.nfkc (normalize u t)))))))) from rfl,
          if_neg hO]
      rw [hout, h]
      exact clean_fix u (normalize u t) hctl hsp2 hcr hspnl hno3 hqn hhead hlast

/-- C5 amended witness: idempotence at a concrete messy ASCII input, on which
the `unicodedata` fragment acts as NFKC does (the first-pass output is
NFKC-stable). -/
theorem normalize_idempotent_witness :
    normalize miniU (normalize miniU "  a   b\n\n\n\nc  ".data) =
      normalize miniU "  a   b\n\n\n\nc  ".data :=
  normalize_idempotent_of_nfkc_stable miniU "  a   b\n\n\n\nc  ".data
    (by decide) (by decide) (by decide)

end ContractChecker
